import Mathlib

/-!
Verification of the engram memory engine against its specification.

The Python source (engram/storage/sqlite_backend.py, engram/sessions.py,
engram/autosave.py, engram/context.py, engram/core/search.py) is shallowly
embedded: the SQLite tables become Lean lists of rows, each SQL statement
becomes an explicit list transformation, and SQL timestamps (compared with
`datetime('now')` / `expires_at > now`) are modelled as integers ordered the
way the timestamp strings are.  Every definition is executable.
-/

namespace Engram

/-- A row of the `memories` table (see the CREATE TABLE in
`SQLiteBackend._init_db`).  `tags` is stored as a JSON array of strings and
returned parsed, so it is modelled directly as a list; `metadata` is an
opaque JSON text blob.  Timestamps are integers; `expiresAt = none` models a
NULL `expires_at`. -/
structure MemRow where
  id : Nat
  content : String
  memory_type : String
  importance : Int
  ns : String
  tags : List String
  metadata : String
  content_hash : String
  embedding : Option (List Rat)
  decay_score : Rat
  created_at : Int
  accessed_at : Int
  access_count : Nat
  expires_at : Option Int
  deriving Repr, DecidableEq

/-- A row of the `memory_links` table. -/
structure LinkRow where
  id : Nat
  source_id : Nat
  target_id : Nat
  relation : String
  metadata : String
  created_at : Int
  deriving Repr, DecidableEq

/-- The per-tenant store: the `memories` and `memory_links` tables plus the
AUTOINCREMENT counters for their integer primary keys. -/
structure DB where
  memories : List MemRow
  links : List LinkRow
  nextMemId : Nat
  nextLinkId : Nat
  deriving Repr, DecidableEq

/-- The SQL predicate `(expires_at IS NULL OR expires_at > datetime('now'))`
(`_NOT_EXPIRED` in sqlite_backend.py). -/
def not_expired (now : Int) (r : MemRow) : Bool :=
  match r.expires_at with
  | none => true
  | some t => now < t

/-- The in-memory `MemoryEntry` handed to `SQLiteBackend.store`, with
exactly the fields the source pydantic class declares (core/types.py:29-41)
— in particular there is NO `expires_at` field: the `expires_at=` keyword
that `client.py` and `_row_to_entry` pass to the constructor is dropped by
the model's default extra-field policy, and reading the attribute raises
`AttributeError`.  A fresh entry has no id yet; `content_hash = ""` models
the falsy/unset hash that makes `store` recompute it from the content. -/
structure MemoryEntry where
  content : String
  memory_type : String
  importance : Int
  ns : String
  tags : List String
  metadata : String
  content_hash : String
  embedding : Option (List Rat)
  decay_score : Rat
  created_at : Int
  accessed_at : Int
  access_count : Nat
  deriving Repr, DecidableEq

/-- The hash `store` uses: the entry's own `content_hash` when set, otherwise
`content_hash(entry.content)`.  The SHA-256-based `content_hash` function is
abstracted as the parameter `hashFn`. -/
def storedHash (hashFn : String → String) (e : MemoryEntry) : String :=
  if e.content_hash = "" then hashFn e.content else e.content_hash

/-- The row built by `store`'s INSERT for a fresh (non-duplicate) entry.
`expires` is the value of the local `expires_str` bound on line 149 (whose
attribute read in fact raises; see `store`). -/
def insertedRow (hashFn : String → String) (db : DB) (e : MemoryEntry)
    (expires : Option Int) : MemRow :=
  { id := db.nextMemId
    content := e.content
    memory_type := e.memory_type
    importance := e.importance
    ns := e.ns
    tags := e.tags
    metadata := e.metadata
    content_hash := storedHash hashFn e
    embedding := e.embedding
    decay_score := e.decay_score
    created_at := e.created_at
    accessed_at := e.accessed_at
    access_count := e.access_count
    expires_at := expires }

/-- The SET clause of the duplicate-path UPDATE in `store`:
`access_count = access_count + 1, accessed_at = CURRENT_TIMESTAMP,
importance = MAX(importance, ?)`. -/
def dupBump (now : Int) (imp : Int) (r : MemRow) : MemRow :=
  { r with
      access_count := r.access_count + 1
      accessed_at := now
      importance := max r.importance imp }

/-- Lines 151-193 of `SQLiteBackend.store` — the try/except around the
INSERT — parametrised by `expires`, the value line 149 would have bound.
The INSERT raises `IntegrityError` exactly when a row with the same
`content_hash` already exists (the column is UNIQUE); the except-branch then
runs `UPDATE memories SET access_count = access_count + 1, accessed_at =
CURRENT_TIMESTAMP, importance = MAX(importance, ?) WHERE content_hash = ?`
and returns `None`.  Otherwise the new row is inserted and its id returned. -/
def storeBody (hashFn : String → String) (db : DB) (now : Int) (e : MemoryEntry)
    (expires : Option Int) : DB × Option Nat :=
  let h := storedHash hashFn e
  if db.memories.any (fun r => r.content_hash == h) then
    ({ db with
        memories := db.memories.map (fun r =>
          if r.content_hash == h then dupBump now e.importance r else r) },
      none)
  else
    ({ db with
        memories := db.memories ++ [insertedRow hashFn db e expires]
        nextMemId := db.nextMemId + 1 },
      some db.nextMemId)

/-- The attribute read on line 149 of `store`,
`entry.expires_at.isoformat() if entry.expires_at else None`.  The source
`MemoryEntry` (core/types.py:29-41) declares no `expires_at` field, so the
read raises `AttributeError` whatever the entry holds. -/
def entryExpiresAt (_e : MemoryEntry) : Except String (Option Int) :=
  Except.error "AttributeError: 'MemoryEntry' object has no attribute 'expires_at'"

/-- `SQLiteBackend.store` (sqlite_backend.py:141-193).  Before any database
work it binds `expires_str` from `entry.expires_at` (line 149, outside the
try); that attribute read raises, so the INSERT/duplicate logic
(`storeBody`) is never reached and the raised error propagates with the
store untouched. -/
def store (hashFn : String → String) (db : DB) (now : Int) (e : MemoryEntry) :
    Except String (DB × Option Nat) := do
  let expires ← entryExpiresAt e
  pure (storeBody hashFn db now e expires)

/-- Look a row up by content hash (the row the duplicate path touches). -/
def findByHash (db : DB) (h : String) : Option MemRow :=
  db.memories.find? (fun r => r.content_hash == h)

/-- Does a memory row with this id exist (FK target for `memory_links`)? -/
def memExists (db : DB) (i : Nat) : Bool :=
  db.memories.any (fun r => r.id == i)

/-- Does a link with this exact `(source_id, target_id, relation)` key exist
(the UNIQUE constraint on `memory_links`)? -/
def linkExists (db : DB) (s t : Nat) (rel : String) : Bool :=
  db.links.any (fun l => l.source_id == s && l.target_id == t && l.relation == rel)

/-- `SQLiteBackend.link`.  The INSERT raises `IntegrityError` either on the
UNIQUE `(source_id, target_id, relation)` key or on a foreign-key violation
(missing endpoint, `PRAGMA foreign_keys=ON`); the except-branch returns
`None` in both cases — the code cannot tell the two apart. -/
def link (db : DB) (now : Int) (s t : Nat) (rel : String) (meta : String) :
    DB × Option Nat :=
  if memExists db s && memExists db t && !linkExists db s t rel then
    ({ db with
        links := db.links ++
          [{ id := db.nextLinkId, source_id := s, target_id := t,
             relation := rel, metadata := meta, created_at := now }]
        nextLinkId := db.nextLinkId + 1 },
      some db.nextLinkId)
  else
    (db, none)

/-- A row of the result set of `SQLiteBackend.get_links`. -/
structure LinkView where
  id : Nat
  source_id : Nat
  target_id : Nat
  relation : String
  direction : String
  linked_content : String
  metadata : String
  created_at : Int
  deriving Repr, DecidableEq

/-- The optional `AND relation = ?` filter of `get_links`. -/
def relOk (rel : Option String) (l : LinkRow) : Bool :=
  match rel with
  | none => true
  | some x => l.relation == x

/-- Primary-key lookup in `memories` (the JOIN `ON m.id = ...` — note: no
expiry predicate appears in the `get_links` queries). -/
def memLookup (db : DB) (i : Nat) : Option MemRow :=
  db.memories.find? (fun r => r.id == i)

/-- ORDER BY `created_at DESC` (stable). -/
def sortByCreatedDesc (l : List LinkView) : List LinkView :=
  l.insertionSort (fun a b => b.created_at ≤ a.created_at)

/-- The outgoing half of `get_links`: links `WHERE l.source_id = ?` joined
with `memories m ON m.id = l.target_id`, carrying `m.content` as
`linked_content`. -/
def outgoingLinks (db : DB) (i : Nat) (rel : Option String) : List LinkView :=
  sortByCreatedDesc
    ((db.links.filter (fun l => l.source_id == i && relOk rel l)).filterMap
      (fun l => (memLookup db l.target_id).map (fun m =>
        { id := l.id, source_id := l.source_id, target_id := l.target_id,
          relation := l.relation, direction := "outgoing",
          linked_content := m.content, metadata := l.metadata,
          created_at := l.created_at })))

/-- The incoming half of `get_links`: links `WHERE l.target_id = ?` joined
with `memories m ON m.id = l.source_id`. -/
def incomingLinks (db : DB) (i : Nat) (rel : Option String) : List LinkView :=
  sortByCreatedDesc
    ((db.links.filter (fun l => l.target_id == i && relOk rel l)).filterMap
      (fun l => (memLookup db l.source_id).map (fun m =>
        { id := l.id, source_id := l.source_id, target_id := l.target_id,
          relation := l.relation, direction := "incoming",
          linked_content := m.content, metadata := l.metadata,
          created_at := l.created_at })))

/-- `SQLiteBackend.get_links`: outgoing results (when direction is
"outgoing" or "both") followed by incoming results (when "incoming" or
"both"). -/
def get_links (db : DB) (i : Nat) (direction : String) (rel : Option String) :
    List LinkView :=
  (if direction == "outgoing" || direction == "both" then outgoingLinks db i rel
   else []) ++
  (if direction == "incoming" || direction == "both" then incomingLinks db i rel
   else [])

/-- The SELECT of `SQLiteBackend.get`:
`SELECT * FROM memories WHERE id = ? AND (expires_at IS NULL OR expires_at >
datetime('now'))`. -/
def getRow (db : DB) (now : Int) (i : Nat) : Option MemRow :=
  db.memories.find? (fun r => r.id == i && not_expired now r)

/-- The SET clause of the access-bookkeeping UPDATE in `get`:
`access_count = access_count + 1, accessed_at = CURRENT_TIMESTAMP`. -/
def gBump (now : Int) (r : MemRow) : MemRow :=
  { r with access_count := r.access_count + 1, accessed_at := now }

/-- The access-bookkeeping UPDATE of `get`:
`UPDATE memories SET access_count = access_count + 1, accessed_at =
CURRENT_TIMESTAMP WHERE id = ?`. -/
def touch (db : DB) (now : Int) (i : Nat) : DB :=
  { db with
      memories := db.memories.map (fun r =>
        if r.id == i then gBump now r else r) }

/-- `SQLiteBackend.get`: select the non-expired row, and when found bump its
access count and `accessed_at` as a side effect; the returned entry is the
row as selected (pre-bump). -/
def get (db : DB) (now : Int) (i : Nat) : DB × Option MemRow :=
  match getRow db now i with
  | none => (db, none)
  | some r => (touch db now i, some r)

/-- A field-level patch for `SQLiteBackend.update`; `none` = field absent.
Only the seven allowed fields are representable; `metadata` carries its
serialized JSON text. -/
structure Patch where
  content : Option String
  memory_type : Option String
  importance : Option Int
  ns : Option String
  tags : Option (List String)
  metadata : Option String
  decay_score : Option Rat
  deriving Repr, DecidableEq

/-- True when the patch contains at least one allowed field (the `sets`
list in `update` is non-empty). -/
def patchNonEmpty (p : Patch) : Bool :=
  p.content.isSome || p.memory_type.isSome || p.importance.isSome ||
  p.ns.isSome || p.tags.isSome || p.metadata.isSome || p.decay_score.isSome

/-- Apply the SET clause of `update` to one row; when `content` is patched
the `content_hash` is recomputed. -/
def applyPatch (hashFn : String → String) (p : Patch) (r : MemRow) : MemRow :=
  { r with
      content := p.content.getD r.content
      memory_type := p.memory_type.getD r.memory_type
      importance := p.importance.getD r.importance
      ns := p.ns.getD r.ns
      tags := p.tags.getD r.tags
      metadata := p.metadata.getD r.metadata
      decay_score := p.decay_score.getD r.decay_score
      content_hash := match p.content with
        | some c => hashFn c
        | none => r.content_hash }

/-- The UNIQUE-`content_hash` conflict test for `update`'s UPDATE
statement: when the patch rewrites `content`, the recomputed hash collides
exactly when some other row (a different id) already carries it; SQLite
then raises `IntegrityError`, which `update` does not catch. -/
def updateHashCollision (hashFn : String → String) (db : DB) (i : Nat)
    (p : Patch) : Bool :=
  match p.content with
  | none => false
  | some c => db.memories.any (fun r => !(r.id == i) && r.content_hash == hashFn c)

/-- `SQLiteBackend.update`: a full `get` (with its access bookkeeping), the
field UPDATE, then a second full `get` to produce the returned entry.  `t1`
and `t2` are the clock readings of the two gets.  When a content patch's
recomputed `content_hash` collides with another row's UNIQUE hash, the
UPDATE statement raises an uncaught `sqlite3.IntegrityError`: the store then
keeps only the first get's access bump and no field is patched. -/
def update (hashFn : String → String) (db : DB) (t1 t2 : Int) (i : Nat)
    (p : Patch) : DB × Except String (Option MemRow) :=
  match get db t1 i with
  | (_, none) => (db, Except.ok none)
  | (db1, some existing) =>
    if patchNonEmpty p then
      if updateHashCollision hashFn db1 i p then
        (db1, Except.error
          "sqlite3.IntegrityError: UNIQUE constraint failed: memories.content_hash")
      else
        let db2 : DB :=
          { db1 with
              memories := db1.memories.map (fun r =>
                if r.id == i then applyPatch hashFn p r else r) }
        ((get db2 t2 i).1, Except.ok (get db2 t2 i).2)
    else
      (db1, Except.ok (some existing))

/-- A row of the `sessions` table of `SessionManager` (the AUTOINCREMENT
row id is never consulted by the modelled queries and is omitted).
`summary` is NULL until the first checkpoint. -/
structure SessionRow where
  session_id : String
  project : Option String
  summary : Option String
  status : String
  started_at : Int
  checkpoint_count : Nat
  deriving Repr, DecidableEq

/-- A row of the `checkpoints` table; the list columns are stored as JSON
arrays and returned parsed, so they are modelled as lists. -/
structure CheckpointRow where
  session_id : String
  checkpoint_num : Nat
  summary : String
  key_facts : List String
  open_tasks : List String
  files_modified : List String
  created_at : Int
  deriving Repr, DecidableEq

/-- The per-tenant session store. -/
structure SessionDB where
  sessions : List SessionRow
  checkpoints : List CheckpointRow
  deriving Repr, DecidableEq

/-- The WHERE clause of `_get_or_create_session`:
`status = 'active' AND (project = ? OR project IS NULL)`, with SQL NULL
semantics — `project = ?` holds only when both sides are non-NULL and
equal, and `project IS NULL` holds for a NULL row regardless of the
parameter. -/
def sessionMatches (p : Option String) (s : SessionRow) : Bool :=
  s.status == "active" &&
    (match s.project, p with
     | none, _ => true
     | some sp, some q => sp == q
     | some _, none => false)

/-- `ORDER BY started_at DESC LIMIT 1` over the matching sessions. -/
def activeSessionFor (db : SessionDB) (p : Option String) : Option SessionRow :=
  ((db.sessions.filter (sessionMatches p)).insertionSort
    (fun a b => b.started_at ≤ a.started_at)).head?

/-- The row INSERTed by `_get_or_create_session` when no active session
matches. -/
def newSession (freshId : String) (p : Option String) (now : Int) : SessionRow :=
  { session_id := freshId, project := p, summary := none, status := "active",
    started_at := now, checkpoint_count := 0 }

/-- `SessionManager._get_or_create_session`: reuse the most recent active
matching session, else insert a fresh one (whose generated id is the
parameter `freshId`). -/
def get_or_create_session (db : SessionDB) (p : Option String)
    (freshId : String) (now : Int) : SessionDB × String :=
  match activeSessionFor db p with
  | some s => (db, s.session_id)
  | none =>
    ({ db with sessions := db.sessions ++ [newSession freshId p now] }, freshId)

/-- `SELECT MAX(checkpoint_num) FROM checkpoints WHERE session_id = ?`,
with `(row[0] or 0)`. -/
def maxCheckpointNum (db : SessionDB) (sid : String) : Nat :=
  ((db.checkpoints.filter (fun c => c.session_id == sid)).map
    (fun c => c.checkpoint_num)).foldl max 0

/-- `SessionManager.save_checkpoint`: find or create the active session,
assign the next checkpoint number, insert the checkpoint, and update the
session's `checkpoint_count` and `summary`.  Returns the store plus the
`(session_id, checkpoint_num)` of the saved checkpoint. -/
def save_checkpoint (db : SessionDB) (p : Option String) (summary : String)
    (key_facts open_tasks files_modified : List String) (freshId : String)
    (now : Int) : SessionDB × String × Nat :=
  let pr := get_or_create_session db p freshId now
  let num := maxCheckpointNum pr.1 pr.2 + 1
  ({ pr.1 with
      checkpoints := pr.1.checkpoints ++
        [{ session_id := pr.2, checkpoint_num := num, summary := summary,
           key_facts := key_facts, open_tasks := open_tasks,
           files_modified := files_modified, created_at := now }]
      sessions := pr.1.sessions.map (fun s =>
        if s.session_id == pr.2 then
          { s with checkpoint_count := num, summary := some summary }
        else s) },
    pr.2, num)

/-- The SQL inner join `checkpoints c JOIN sessions s ON c.session_id =
s.session_id`. -/
def sqlJoin (cs : List CheckpointRow) (ss : List SessionRow) :
    List (CheckpointRow × SessionRow) :=
  match cs with
  | [] => []
  | c :: rest =>
    (ss.filter (fun s => s.session_id == c.session_id)).map (fun s => (c, s)) ++
      sqlJoin rest ss

/-- `SessionManager.load_checkpoint`: the most recent joined checkpoint,
narrowed by session id when provided, else by project when provided (SQL
`s.project = ?` never matches NULL projects), else unrestricted. -/
def load_checkpoint (db : SessionDB) (p : Option String) (sid : Option String) :
    Option (CheckpointRow × SessionRow) :=
  let joined := sqlJoin db.checkpoints db.sessions
  let rows : List (CheckpointRow × SessionRow) :=
    match sid with
    | some key => joined.filter (fun cs => cs.1.session_id == key)
    | none =>
      match p with
      | some proj => joined.filter (fun cs => cs.2.project == some proj)
      | none => joined
  ((rows.insertionSort (fun a b => b.1.created_at ≤ a.1.created_at)).head?)

/-- Python `str(i)` for an int, mirroring `instToStringInt` and the decimal
representation. -/
def intStr : Int → String
  | Int.ofNat m => Nat.repr m
  | Int.negSucc m => "-" ++ Nat.repr (m + 1)

/-- `AutoSave.restore`: with a checkpoint id it loads by
`session_id = str(checkpoint_id)` (never by checkpoint number); otherwise
it loads the latest checkpoint of the instance's project. -/
def restore (db : SessionDB) (project : Option String)
    (checkpoint_id : Option Int) : Option (CheckpointRow × SessionRow) :=
  match checkpoint_id with
  | some cid => load_checkpoint db none (some (intStr cid))
  | none => load_checkpoint db project none

/-- `AutoSaveConfig` (autosave.py). -/
structure AutoSaveConfig where
  enabled : Bool
  interval_seconds : Int
  message_threshold : Nat
  ram_threshold_pct : Rat
  on_session_end : Bool
  deriving Repr, DecidableEq

/-- The tracked `Delta` of ids changed since the last checkpoint. -/
structure Delta where
  stored_ids : List Nat
  updated_ids : List Nat
  deleted_ids : List Nat
  link_ids : List Nat
  deriving Repr, DecidableEq

/-- `Delta.total_changes`. -/
def Delta.total_changes (d : Delta) : Nat :=
  d.stored_ids.length + d.updated_ids.length + d.deleted_ids.length +
    d.link_ids.length

/-- `Delta.is_empty`. -/
def Delta.is_empty (d : Delta) : Bool :=
  d.total_changes == 0

/-- The in-memory state of one `AutoSave` instance.  `last_save_at` is a
monotonic-clock reading. -/
structure AutoSaveState where
  config : AutoSaveConfig
  delta : Delta
  message_count : Nat
  last_save_at : Rat
  total_checkpoints : Nat
  last_trigger : Option String
  deriving Repr, DecidableEq

/-- The guard `ram_pct is not None and ram_pct >= ram_threshold_pct`. -/
def ramHit (cfg : AutoSaveConfig) (ram : Option Rat) : Bool :=
  match ram with
  | none => false
  | some r => cfg.ram_threshold_pct ≤ r

/-- `AutoSave.should_save` at monotonic instant `now`. -/
def should_save (s : AutoSaveState) (now : Rat) (ram : Option Rat) :
    Option String :=
  if !s.config.enabled then none
  else if s.delta.is_empty && s.message_count == 0 then none
  else if ramHit s.config ram then some "ram_threshold"
  else if s.config.message_threshold ≤ s.message_count then
    some "message_threshold"
  else if (s.config.interval_seconds : Rat) ≤ now - s.last_save_at then
    some "timer"
  else none

/-- The state effect of `AutoSave.checkpoint` on the instance: reset the
delta and message counter, stamp the save instant, count the checkpoint,
record the trigger.  (The checkpoint row itself is written through
`save_checkpoint` on the session store.) -/
def checkpointReset (s : AutoSaveState) (now : Rat) (reason : String) :
    AutoSaveState :=
  { s with
      delta := { stored_ids := [], updated_ids := [], deleted_ids := [],
                 link_ids := [] }
      message_count := 0
      last_save_at := now
      total_checkpoints := s.total_checkpoints + 1
      last_trigger := some reason }

/-- `AutoSave.tick`: count the message, evaluate the triggers, and
checkpoint when one fires.  Returns the new state and the reason (if a
save happened). -/
def tick (s : AutoSaveState) (now : Rat) (ram : Option Rat) :
    AutoSaveState × Option String :=
  let s1 := { s with message_count := s.message_count + 1 }
  match should_save s1 now ram with
  | some reason => (checkpointReset s1 now reason, some reason)
  | none => (s1, none)

/-- Per the spec's words: the trigger decision of one `tick`, evaluated
with the already-incremented message count, in the priority order
disabled/empty, RAM, message count, timer. -/
def specTickReason (s : AutoSaveState) (now : Rat) (ram : Option Rat) :
    Option String :=
  if s.config.enabled = false ||
      (s.delta.is_empty && (s.message_count + 1) == 0) then none
  else if ramHit s.config ram then some "ram_threshold"
  else if s.config.message_threshold ≤ s.message_count + 1 then
    some "message_threshold"
  else if (s.config.interval_seconds : Rat) ≤ now - s.last_save_at then
    some "timer"
  else none

/-- A node record of `get_graph`: id, content truncated to 200 characters,
type, importance, discovered depth. -/
structure GNode where
  id : Nat
  content : String
  type : String
  importance : Int
  depth : Nat
  deriving Repr, DecidableEq

/-- An edge record of `get_graph`. -/
structure GEdge where
  id : Nat
  source_id : Nat
  target_id : Nat
  relation : String
  deriving Repr, DecidableEq

/-- The BFS neighbour of `cur` through a link (`target_id` if `cur` is the
source, else `source_id`). -/
def linkOther (cur : Nat) (l : LinkView) : Nat :=
  if l.source_id == cur then l.target_id else l.source_id

/-- The inner for-loop of `get_graph` over the links of the current node:
record each unseen edge once, and enqueue each neighbour not yet visited at
depth + 1 (the visited set does not change during the loop, so a neighbour
reached through two links is enqueued twice, exactly as in the code).
Returns the updated (seen edge ids, edges, queue). -/
def processLinks (cur depth : Nat) (visited : List Nat) :
    List LinkView → List Nat → List GEdge → List (Nat × Nat) →
    List Nat × List GEdge × List (Nat × Nat)
  | [], seen, edges, queue => (seen, edges, queue)
  | l :: ls, seen, edges, queue =>
    processLinks cur depth visited ls
      (if l.id ∈ seen then seen else l.id :: seen)
      (if l.id ∈ seen then edges
       else edges ++ [{ id := l.id, source_id := l.source_id,
                        target_id := l.target_id, relation := l.relation }])
      (if linkOther cur l ∈ visited then queue
       else queue ++ [(linkOther cur l, depth + 1)])

/-- The BFS loop of `get_graph`, with explicit fuel.  Each iteration pops
the queue head; an already-visited id is skipped; otherwise the id is
marked visited and fetched with `get` (whose access-count bump is threaded
through the store); a missing or expired row is skipped after marking; an
entry found is appended as a node, and (below the depth limit) its links
are folded in by `processLinks`.  The final Bool records whether the queue
was fully drained (the loop completed) before the fuel ran out. -/
def bfsAux (now : Int) (rel : Option String) (maxDepth : Nat) :
    Nat → DB → List (Nat × Nat) → List Nat → List Nat → List GNode →
    List GEdge → DB × List GNode × List GEdge × Bool
  | _, db, [], _, _, nodes, edges => (db, nodes, edges, true)
  | 0, db, _ :: _, _, _, nodes, edges => (db, nodes, edges, false)
  | fuel + 1, db, (cur, depth) :: rest, visited, seen, nodes, edges =>
    if cur ∈ visited then
      bfsAux now rel maxDepth fuel db rest visited seen nodes edges
    else
      match getRow db now cur with
      | none => bfsAux now rel maxDepth fuel db rest (cur :: visited) seen nodes edges
      | some entry =>
        let db1 := touch db now cur
        let nodes' := nodes ++
          [{ id := entry.id, content := String.mk (entry.content.data.take 200),
             type := entry.memory_type, importance := entry.importance,
             depth := depth }]
        if maxDepth ≤ depth then
          bfsAux now rel maxDepth fuel db1 rest (cur :: visited) seen nodes' edges
        else
          let pe := processLinks cur depth (cur :: visited)
            (get_links db1 cur "both" rel) seen edges rest
          bfsAux now rel maxDepth fuel db1 pe.2.2 (cur :: visited) pe.1 nodes'
            pe.2.1

/-- Every id the BFS can ever enqueue: the root plus all link endpoints. -/
def idUniverse (db : DB) (root : Nat) : List Nat :=
  root :: (db.links.map (fun l => l.source_id) ++
    db.links.map (fun l => l.target_id))

/-- A fuel budget sufficient to drain the BFS queue (proved in
`get_graph_spec`): one initial queue entry plus, per universe id, one visit
producing at most `2 * |links|` pushes. -/
def graphFuel (db : DB) (root : Nat) : Nat :=
  1 + (idUniverse db root).length * (2 * db.links.length + 1)

/-- `SQLiteBackend.get_graph`: clamp the depth to 5 and run the BFS from
the root with an empty visited set.  Returns the threaded store, the node
and edge lists, and the queue-drained flag. -/
def get_graph (db : DB) (now : Int) (memory_id : Nat) (max_depth : Nat)
    (rel : Option String) : DB × List GNode × List GEdge × Bool :=
  bfsAux now rel (min max_depth 5) (graphFuel db memory_id) db
    [(memory_id, 0)] [] [] [] []

/-- Builds a simple memory row for concrete examples; the content doubles as
the content hash. -/
def mkRow (i : Nat) (content : String) (exp : Option Int) : MemRow :=
  { id := i, content := content, memory_type := "fact", importance := 5,
    ns := "default", tags := [], metadata := "{}", content_hash := content,
    embedding := none, decay_score := 1, created_at := 0, accessed_at := 0,
    access_count := 0, expires_at := exp }

/-- Example store for the C1 witness: one row with content hash "abc". -/
def c1Row : MemRow :=
  { id := 1, content := "hello", memory_type := "fact", importance := 4,
    ns := "default", tags := [], metadata := "{}", content_hash := "abc",
    embedding := none, decay_score := 1, created_at := 0, accessed_at := 0,
    access_count := 0, expires_at := none }

/-- Example duplicate entry for the C1 examples. -/
def c1Entry : MemoryEntry :=
  { content := "hello", memory_type := "fact", importance := 7,
    ns := "default", tags := [], metadata := "{}", content_hash := "abc",
    embedding := none, decay_score := 1, created_at := 9, accessed_at := 9,
    access_count := 0 }

/-- Example DB for the C1 witness. -/
def c1DB : DB := { memories := [c1Row], links := [], nextMemId := 2, nextLinkId := 1 }

/-- Example DB for C4 with an existing link (1, 2, "related"). -/
def c4DupDB : DB :=
  { memories := [mkRow 1 "A" none, mkRow 2 "B" none]
    links := [{ id := 1, source_id := 1, target_id := 2, relation := "related",
                metadata := "{}", created_at := 0 }]
    nextMemId := 3, nextLinkId := 2 }

/-- Example DB for C4 in which memory 2 does not exist. -/
def c4MissDB : DB :=
  { memories := [mkRow 1 "A" none], links := [], nextMemId := 2, nextLinkId := 1 }

/-- Example DB for C2: memory 2 ("secret") is expired at time 100, and
memory 1 links to it. -/
def c2DB : DB :=
  { memories := [mkRow 1 "alpha" none, mkRow 2 "secret" (some 50)]
    links := [{ id := 1, source_id := 1, target_id := 2, relation := "related",
                metadata := "{}", created_at := 0 }]
    nextMemId := 3, nextLinkId := 2 }

/-- Python `str.split()` with no separator: split on runs of whitespace and
drop empty fragments.  `acc` holds the current fragment reversed. -/
def pySplitAux : List Char → List Char → List String
  | [], acc => if acc.isEmpty then [] else [String.mk acc.reverse]
  | c :: cs, acc =>
    if c.isWhitespace then
      if acc.isEmpty then pySplitAux cs []
      else String.mk acc.reverse :: pySplitAux cs []
    else pySplitAux cs (c :: acc)

/-- Python `s.split()`. -/
def pySplit (s : String) : List String :=
  pySplitAux s.data []

/-- The character transformation inside `sanitize_fts_query`:
`c if c.isalnum() or c.isspace() else " "`. -/
def cleanChar (c : Char) : Char :=
  if c.isAlphanum || c.isWhitespace then c else ' '

/-- The `cleaned` string of `sanitize_fts_query`. -/
def cleanQuery (s : String) : String :=
  String.mk (s.data.map cleanChar)

/-- One phrase-quoted word: `f'"{w}"'`. -/
def quoteWord (w : String) : String :=
  "\"" ++ w ++ "\""

/-- Python `" OR ".join(ws)`. -/
def orJoin : List String → String
  | [] => ""
  | [w] => w
  | w :: ws => w ++ " OR " ++ orJoin ws

/-- `engram.core.search.sanitize_fts_query`: clean, split, keep the first at
most `maxWords` words, return `None` when nothing survives, else the
OR-joined phrase-quoted words. -/
def sanitize_fts_query (raw : String) (maxWords : Nat := 10) : Option String :=
  let words := (pySplit (cleanQuery raw)).take maxWords
  if words.isEmpty then none
  else some (orJoin (words.map quoteWord))

/-- A row of a search result set (`SearchResult` in core/types.py). -/
structure SearchResultR where
  memory : MemRow
  score : Rat
  match_type : String
  deriving Repr, DecidableEq

/-- The optional namespace filter of the search queries. -/
def nsOk (ns : Option String) (r : MemRow) : Bool :=
  match ns with
  | none => true
  | some x => r.ns == x

/-- SQLite `content LIKE '%w%'` (ASCII case-insensitive substring). -/
def likeContains (s w : String) : Bool :=
  decide ((w.data.map Char.toLower).IsInfix (s.data.map Char.toLower))

/-- `SQLiteBackend.search_text`.  The FTS MATCH semantics and the FTS rank
are substrate-specific, so they are abstracted as `ftsMatch` and `rankOf`
(rank ascending = better, score reported as `|rank|`); `ftsFails` models the
`sqlite3.OperationalError` fallback branch, which LIKE-matches on the first
whitespace-split word of the raw query.  The sanitize-to-`None` early return
precedes everything else. -/
def search_text (ftsMatch : String → MemRow → Bool) (rankOf : MemRow → Rat)
    (ftsFails : Bool) (db : DB) (now : Int) (query : String)
    (ns : Option String) (limit : Nat) : List SearchResultR :=
  match sanitize_fts_query query 10 with
  | none => []
  | some fexpr =>
    if ftsFails then
      match pySplit query with
      | [] => []
      | w :: _ =>
        (((db.memories.filter (fun r =>
              likeContains r.content w && not_expired now r && nsOk ns r)).insertionSort
            (fun a b => b.importance ≤ a.importance)).take limit).map
          (fun r => { memory := r, score := 0, match_type := "like" })
    else
      (((db.memories.filter (fun r =>
            ftsMatch fexpr r && not_expired now r && nsOk ns r)).insertionSort
          (fun a b => rankOf a < rankOf b ∨
            (rankOf a = rankOf b ∧ b.importance ≤ a.importance))).take limit).map
        (fun r => { memory := r, score := |rankOf r|, match_type := "fts" })

/-- Empty example store for the C8 witness. -/
def c8DB : DB := { memories := [], links := [], nextMemId := 1, nextLinkId := 1 }

/-- Clamp to the unit interval: Python `max(0.0, min(1.0, x))`. -/
def clamp01 (x : Rat) : Rat := max 0 (min 1 x)

/-- Score normalization in `_merge_search_results`: semantic scores are
clamped to [0,1]; FTS ranks are normalized as `1 / (1 + |rank|)` (and then
clamped, which is a no-op). -/
def normScore (source : String) (sc : Rat) : Rat :=
  if source == "semantic" then clamp01 sc else clamp01 (1 / (1 + |sc|))

/-- The combined candidate score `0.6 * norm + 0.4 * importance/10`. -/
def combinedScore (source : String) (r : SearchResultR) : Rat :=
  (6 / 10) * normScore source r.score + (4 / 10) * ((r.memory.importance : Rat) / 10)

/-- The `candidates` dict of `build_context`, keyed by memory id, in
insertion order. -/
abbrev Cands := List (Nat × MemRow × Rat)

/-- `candidates[id][1]` (the stored score), when present. -/
def candScore (cs : Cands) (i : Nat) : Option Rat :=
  (cs.find? (fun c => c.1 == i)).map (fun c => c.2.2)

/-- The shared insert-or-keep-max step: replace the stored pair only when
the new score is strictly larger, else append a fresh entry. -/
def candInsert (cs : Cands) (j : Nat) (m : MemRow) (s : Rat) : Cands :=
  if cs.any (fun c => c.1 == j) then
    cs.map (fun c => if c.1 == j then (if s > c.2.2 then (j, m, s) else c) else c)
  else cs ++ [(j, m, s)]

/-- `_merge_search_results`: fold the result list into the candidates dict
with the combined score. -/
def merge_search_results (cs : Cands) (results : List SearchResultR)
    (source : String) : Cands :=
  results.foldl (fun acc r =>
    candInsert acc r.memory.id r.memory (combinedScore source r)) cs

/-- The priority-recall merge loop of `build_context`: each entry
contributes `importance / 10`. -/
def priorityMerge (cs : Cands) (entries : List MemRow) : Cands :=
  entries.foldl (fun acc e =>
    candInsert acc e.id e ((e.importance : Rat) / 10)) cs

/-- The candidate pool of `build_context`: FTS results, then semantic
results, then priority recall, merged into one dict. -/
def build_context_candidates (fts sem : List SearchResultR)
    (prio : List MemRow) : Cands :=
  priorityMerge (merge_search_results (merge_search_results [] fts "fts") sem
    "semantic") prio

/-- Stage 2 of `build_context`:
`sorted(candidates.values(), key=score, reverse=True)` (stable descending
sort). -/
def build_context_ranked (fts sem : List SearchResultR) (prio : List MemRow) :
    List (MemRow × Rat) :=
  ((build_context_candidates fts sem prio).map (fun c => c.2)).insertionSort
    (fun a b => b.2 ≤ a.2)

/-- Per the spec's words: the relevance contribution of a search hit — the
vector similarity clamped to [0,1] for semantic hits, `1/(1+|rank|)` for
FTS hits (no clamp mentioned). -/
def specRelevanceNorm (source : String) (sc : Rat) : Rat :=
  if source == "semantic" then clamp01 sc else 1 / (1 + |sc|)

/-- Per the spec's words: a search-source candidate's final score
`0.6·relevance_norm + 0.4·importance/10`. -/
def specSearchScore (source : String) (r : SearchResultR) : Rat :=
  (6 / 10) * specRelevanceNorm source r.score +
    (4 / 10) * ((r.memory.importance : Rat) / 10)

/-- Per the spec's words: all score contributions a memory id receives from
the three sources (FTS, semantic, priority `importance/10`). -/
def specContribs (fts sem : List SearchResultR) (prio : List MemRow)
    (i : Nat) : List Rat :=
  ((fts.filter (fun r => r.memory.id == i)).map (specSearchScore "fts")) ++
  ((sem.filter (fun r => r.memory.id == i)).map (specSearchScore "semantic")) ++
  ((prio.filter (fun e => e.id == i)).map (fun e => (e.importance : Rat) / 10))

/-- Maximum of two optional scores. -/
def omax : Option Rat → Option Rat → Option Rat
  | none, b => b
  | a, none => a
  | some x, some y => some (max x y)

/-- Maximum of a list of scores (`none` on the empty list). -/
def listMax : List Rat → Option Rat
  | [] => none
  | x :: xs =>
    match listMax xs with
    | none => some x
    | some m => some (max x m)

instance : IsTotal (MemRow × Rat) (fun a b => b.2 ≤ a.2) :=
  ⟨fun a b => le_total b.2 a.2⟩

instance : IsTrans (MemRow × Rat) (fun a b => b.2 ≤ a.2) :=
  ⟨fun _ _ _ h1 h2 => le_trans h2 h1⟩

/-- Example database for the C5 witness: a cyclic link structure
A → B → C → A with no expiries. -/
def c5DB : DB :=
  { memories := [mkRow 1 "A" none, mkRow 2 "B" none, mkRow 3 "C" none]
    links := [{ id := 1, source_id := 1, target_id := 2, relation := "related",
                metadata := "{}", created_at := 0 },
              { id := 2, source_id := 2, target_id := 3, relation := "related",
                metadata := "{}", created_at := 0 },
              { id := 3, source_id := 3, target_id := 1, relation := "related",
                metadata := "{}", created_at := 0 }]
    nextMemId := 4, nextLinkId := 4 }

/-- Example database for the C9 witness. -/
def c9DB : DB :=
  { memories := [mkRow 1 "A" none], links := [], nextMemId := 2, nextLinkId := 1 }

/-- Example patch for the C9 witness: rewrite the content (so the hash is
recomputed, without colliding) and set importance to 9. -/
def c9Patch : Patch :=
  { content := some "B", memory_type := none, importance := some 9, ns := none,
    tags := none, metadata := none, decay_score := none }

/-- Example autosave state for the C6 witness: threshold 3, two messages
seen, non-empty delta. -/
def c6State : AutoSaveState :=
  { config := { enabled := true, interval_seconds := 1800,
                message_threshold := 3, ram_threshold_pct := 85,
                on_session_end := true }
    delta := { stored_ids := [1, 2], updated_ids := [3], deleted_ids := [],
               link_ids := [] }
    message_count := 2, last_save_at := 0, total_checkpoints := 0,
    last_trigger := none }

/-- Example disabled autosave state for the C6 witness. -/
def c6Disabled : AutoSaveState :=
  { c6State with config := { c6State.config with enabled := false } }

/-- Example session store for C3: the only active session has a NULL
project. -/
def c3DB : SessionDB :=
  { sessions := [{ session_id := "session_old", project := none,
                   summary := none, status := "active", started_at := 0,
                   checkpoint_count := 0 }]
    checkpoints := [] }

/-- Example session store for the C10 witness. -/
def c10DB : SessionDB :=
  { sessions := [{ session_id := "session_20240101_abcdef",
                   project := some "x", summary := none, status := "active",
                   started_at := 0, checkpoint_count := 1 }]
    checkpoints := [{ session_id := "session_20240101_abcdef",
                      checkpoint_num := 1, summary := "s", key_facts := [],
                      open_tasks := [], files_modified := [],
                      created_at := 0 }] }

/-- A `find?` over a list transformed by a predicate-preserving map is the
map of the `find?`. -/
theorem find?_map_preserving {α : Type} (l : List α) (p : α → Bool) (f : α → α)
    (hf : ∀ a, p (f a) = p a) :
    (l.map f).find? p = (l.find? p).map f := by
  rw [List.find?_map]
  have : p ∘ f = p := by funext a; simp [Function.comp, hf]
  rw [this]

theorem store_lemma_find_eq_none {db : DB} {h : String}
    (hnone : findByHash db h = none) :
    db.memories.any (fun r => r.content_hash == h) = false := by
  rw [List.any_eq_false]
  intro r hr
  by_contra hc
  have : db.memories.find? (fun r => r.content_hash == h) ≠ none := by
    intro he
    rw [List.find?_eq_none] at he
    exact (he r hr) (by simpa using hc)
  exact this hnone

theorem store_lemma_find_isSome {db : DB} {h : String} {r : MemRow}
    (hsome : findByHash db h = some r) :
    db.memories.any (fun r => r.content_hash == h) = true := by
  rw [List.any_eq_true]
  exact ⟨r, List.mem_of_find?_eq_some hsome, by
    have := List.find?_some hsome
    simpa using this⟩

/-- C1 (refuted: code bug).  The claim describes `store`'s insert and
duplicate-bump behaviour, but `store` never reaches either path: line 149
(`expires_str = entry.expires_at.isoformat() if entry.expires_at else
None`) runs before the INSERT and outside the try, and the source
`MemoryEntry` declares no `expires_at` field, so every call raises
`AttributeError` with the store untouched — no row is ever inserted, no id
returned, and no duplicate ever bumped. -/
theorem store_attribute_error (hashFn : String → String) (db : DB) (now : Int)
    (e : MemoryEntry) :
    store hashFn db now e = Except.error
      "AttributeError: 'MemoryEntry' object has no attribute 'expires_at'" :=
  rfl

/-- The dedup behaviour the spec describes does hold of the unreachable
try/except body (`storeBody`, lines 151-193): had line 149 succeeded, a
fresh hash would insert and return the new id while a duplicate hash would
return `none` and bump the existing row. -/
theorem storeBody_dedup (hashFn : String → String) (db : DB) (now : Int)
    (e : MemoryEntry) (expires : Option Int) :
    (findByHash db (storedHash hashFn e) = none →
      (storeBody hashFn db now e expires).2 = some db.nextMemId ∧
      (storeBody hashFn db now e expires).1.memories =
        db.memories ++ [insertedRow hashFn db e expires] ∧
      (storeBody hashFn db now e expires).1.memories.length =
        db.memories.length + 1) ∧
    (∀ r, findByHash db (storedHash hashFn e) = some r →
      (storeBody hashFn db now e expires).2 = none ∧
      (storeBody hashFn db now e expires).1.memories.length =
        db.memories.length ∧
      findByHash (storeBody hashFn db now e expires).1 (storedHash hashFn e) =
        some (dupBump now e.importance r) ∧
      ∀ r' ∈ db.memories, r'.content_hash ≠ storedHash hashFn e →
        r' ∈ (storeBody hashFn db now e expires).1.memories) := by
  constructor
  · intro hnone
    have hany := store_lemma_find_eq_none hnone
    refine ⟨?_, ?_, ?_⟩ <;> simp [storeBody, hany]
  · intro r hsome
    have hany := store_lemma_find_isSome hsome
    have hkey : r.content_hash = storedHash hashFn e := by
      have := List.find?_some hsome
      simpa using this
    have hf : ∀ a : MemRow,
        ((if a.content_hash == storedHash hashFn e then
            dupBump now e.importance a else a).content_hash ==
          storedHash hashFn e) = (a.content_hash == storedHash hashFn e) := by
      intro a
      by_cases hc : a.content_hash == storedHash hashFn e <;> simp [hc, dupBump]
    refine ⟨?_, ?_, ?_, ?_⟩
    · simp [storeBody, hany]
    · simp [storeBody, hany]
    · simp only [storeBody, hany, if_true, findByHash]
      rw [find?_map_preserving _ _ _ hf]
      unfold findByHash at hsome
      rw [hsome]
      simp [hkey]
    · intro r' hr' hne
      have heq : (if r'.content_hash == storedHash hashFn e then
          dupBump now e.importance r' else r') = r' := by
        simp [hne]
      simp only [storeBody, hany, if_true]
      exact heq ▸ List.mem_map_of_mem _ hr'

/-- Concrete exercise of `storeBody`'s duplicate branch: on the single
stored row it returns no id, keeps the count at 1, and bumps the row to
access count 1, accessed at 9, importance `max 4 7 = 7`. -/
theorem storeBody_dedup_exercise :
    (storeBody (fun s => s) c1DB 9 c1Entry none).2 = none ∧
    (storeBody (fun s => s) c1DB 9 c1Entry none).1.memories.length =
      c1DB.memories.length ∧
    findByHash (storeBody (fun s => s) c1DB 9 c1Entry none).1
      (storedHash (fun s => s) c1Entry) =
        some (dupBump 9 c1Entry.importance c1Row) ∧
    ∀ r' ∈ c1DB.memories, r'.content_hash ≠ storedHash (fun s => s) c1Entry →
      r' ∈ (storeBody (fun s => s) c1DB 9 c1Entry none).1.memories :=
  (storeBody_dedup (fun s => s) c1DB 9 c1Entry none).2 c1Row (by decide)

/-- C4 counterexample.  The claim says a missing endpoint is reported by an
outcome distinct from duplicate; in the code both the duplicate INSERT and
the missing-endpoint INSERT raise `IntegrityError` and return the very same
`None`: on the duplicate DB and on the missing-endpoint DB the result of
`link(1, 2, "related")` is identical (`none`, store unchanged). -/
theorem link_not_found_counterexample :
    (link c4MissDB 7 1 2 "related" "{}").2 = none ∧
    (link c4MissDB 7 1 2 "related" "{}").1 = c4MissDB ∧
    (link c4DupDB 7 1 2 "related" "{}").2 = none ∧
    (link c4DupDB 7 1 2 "related" "{}").1 = c4DupDB := by decide

/-- C4 (amended).  `link(s, t, r)` returns a fresh link id and appends the
edge when both endpoints exist and no `(s, t, r)` link exists; in every
other case — the link already exists, or either endpoint is missing — it
returns the one shared failure outcome `none` and leaves the store
unchanged (duplicate and not-found are not distinguishable). -/
theorem link_spec (db : DB) (now : Int) (s t : Nat) (rel meta : String) :
    (memExists db s = true → memExists db t = true →
      linkExists db s t rel = false →
      link db now s t rel meta =
        ({ db with
            links := db.links ++
              [{ id := db.nextLinkId, source_id := s, target_id := t,
                 relation := rel, metadata := meta, created_at := now }]
            nextLinkId := db.nextLinkId + 1 },
          some db.nextLinkId)) ∧
    (memExists db s = false ∨ memExists db t = false ∨
      linkExists db s t rel = true →
      link db now s t rel meta = (db, none)) := by
  constructor
  · intro hs ht hd
    simp [link, hs, ht, hd]
  · intro h
    rcases h with h | h | h <;> simp [link, h]

/-- Witness for C4: the amended theorem applied at both a successful and a
missing-endpoint input. -/
theorem link_spec_witness :
    link c4DupDB 7 2 1 "related" "{}" =
      ({ c4DupDB with
          links := c4DupDB.links ++
            [{ id := 2, source_id := 2, target_id := 1, relation := "related",
               metadata := "{}", created_at := 7 }]
          nextLinkId := 3 },
        some 2) ∧
    link c4MissDB 7 1 2 "related" "{}" = (c4MissDB, none) :=
  ⟨(link_spec c4DupDB 7 2 1 "related" "{}").1 (by decide) (by decide) (by decide),
   (link_spec c4MissDB 7 1 2 "related" "{}").2 (Or.inr (Or.inl (by decide)))⟩

/-- C2 failing input.  At time 100 memory 2 is expired: `get` refuses to
return it.  Yet `get_links(1)` — whose JOINs carry no expiry predicate —
returns the link with the expired memory's content as `linked_content`.
Every other read query appends `_NOT_EXPIRED`; `get_links` is the one read
path that leaks expired data, contradicting the spec's "no memory with
`expires_at ≤ now` is ever returned". -/
theorem get_links_expired_leak :
    get_links c2DB 1 "both" none =
      [{ id := 1, source_id := 1, target_id := 2, relation := "related",
         direction := "outgoing", linked_content := "secret",
         metadata := "{}", created_at := 0 }] ∧
    not_expired 100 (mkRow 2 "secret" (some 50)) = false ∧
    (get c2DB 100 2).2 = none := by decide

/-- On a list of rows with pairwise-distinct ids, `find?` with a predicate
that pins the id returns exactly the unique row carrying that id. -/
theorem find?_eq_some_of_unique_id {l : List MemRow} {r : MemRow}
    {p : MemRow → Bool} (hnodup : (l.map (fun x => x.id)).Nodup) (hmem : r ∈ l)
    (hp : p r = true) (hkey : ∀ x, p x = true → x.id = r.id) :
    l.find? p = some r := by
  induction l with
  | nil => cases hmem
  | cons x xs ih =>
    rcases List.mem_cons.mp hmem with rfl | hmem'
    · exact List.find?_cons_of_pos _ hp
    · have hxid : x.id ∉ xs.map (fun y => y.id) :=
        (List.nodup_cons.mp (by simpa using hnodup)).1
      have hrid : r.id ∈ xs.map (fun y => y.id) := List.mem_map_of_mem _ hmem'
      have hpx : p x = false := by
        by_contra hc
        have hpx' : p x = true := by
          cases hx : p x
          · exact absurd hx hc
          · rfl
        exact hxid ((hkey x hpx') ▸ hrid)
      rw [List.find?_cons_of_neg _ (by simp [hpx])]
      exact ih (List.Nodup.of_cons (by simpa using hnodup)) hmem'

/-- Mapping a row-transformer that preserves ids leaves the id column (and
its Nodup-ness) unchanged. -/
theorem map_preserves_ids {l : List MemRow} {f : MemRow → MemRow}
    (hf : ∀ x, (f x).id = x.id) :
    (l.map f).map (fun x => x.id) = l.map (fun x => x.id) := by
  rw [List.map_map]
  exact List.map_congr_left (fun x _ => hf x)

/-- On a unique-id store, `getRow` returns exactly the (non-expired) row
with the requested id. -/
theorem getRow_eq_some {db : DB} {now : Int} {i : Nat} {r : MemRow}
    (hnodup : (db.memories.map (fun x => x.id)).Nodup)
    (hmem : r ∈ db.memories) (hid : r.id = i)
    (hh : not_expired now r = true) :
    getRow db now i = some r :=
  find?_eq_some_of_unique_id hnodup hmem (by simp [hid, hh])
    (fun x hx => by
      simp only [Bool.and_eq_true, beq_iff_eq] at hx
      rw [hx.1, hid])

/-- On a unique-id store, `get` returns the row and touches it. -/
theorem get_eq_touch {db : DB} {now : Int} {i : Nat} {r : MemRow}
    (hnodup : (db.memories.map (fun x => x.id)).Nodup)
    (hmem : r ∈ db.memories) (hid : r.id = i)
    (hh : not_expired now r = true) :
    get db now i = (touch db now i, some r) := by
  unfold get
  rw [getRow_eq_some hnodup hmem hid hh]

/-- Id-preserving row maps keep the id column Nodup. -/
theorem nodup_ids_map {l : List MemRow} {f : MemRow → MemRow}
    (hf : ∀ x, (f x).id = x.id) (h : (l.map (fun x => x.id)).Nodup) :
    ((l.map f).map (fun x => x.id)).Nodup := by
  rw [map_preserves_ids hf]
  exact h

@[simp] theorem gBump_id (t : Int) (x : MemRow) : (gBump t x).id = x.id := rfl

@[simp] theorem gBump_expires (t : Int) (x : MemRow) :
    (gBump t x).expires_at = x.expires_at := rfl

@[simp] theorem applyPatch_id (hashFn : String → String) (p : Patch)
    (x : MemRow) : (applyPatch hashFn p x).id = x.id := rfl

@[simp] theorem applyPatch_expires (hashFn : String → String) (p : Patch)
    (x : MemRow) : (applyPatch hashFn p x).expires_at = x.expires_at := rfl

/-- After a `touch` of the unique row with id `i`, a primary-key lookup
returns that row bumped. -/
theorem memLookup_touch_eq {db : DB} {now : Int} {i : Nat} {r : MemRow}
    (hnodup : (db.memories.map (fun x => x.id)).Nodup)
    (hmem : r ∈ db.memories) (hid : r.id = i) :
    memLookup (touch db now i) i = some (gBump now r) := by
  unfold memLookup touch
  have hf : ∀ x : MemRow, (if x.id == i then gBump now x else x).id = x.id := by
    intro x; by_cases hx : x.id == i <;> simp [hx]
  refine find?_eq_some_of_unique_id (nodup_ids_map hf hnodup) ?_
    (by simp [hid]) (fun x hx => by
      simp only [beq_iff_eq] at hx
      simp [hx, hid])
  have := List.mem_map_of_mem
    (fun x : MemRow => if x.id == i then gBump now x else x) hmem
  simpa [hid] using this

/-- `touch` (a get's access bump) changes neither ids nor content hashes,
so it cannot create or remove a UNIQUE `content_hash` collision. -/
theorem updateHashCollision_touch (hashFn : String → String) (db : DB)
    (t : Int) (i : Nat) (p : Patch) :
    updateHashCollision hashFn (touch db t i) i p =
      updateHashCollision hashFn db i p := by
  unfold updateHashCollision touch
  cases p.content with
  | none => rfl
  | some c =>
    simp only [List.any_map]
    congr 1
    funext r
    by_cases hx : r.id == i <;> simp [hx, gBump, Function.comp]

/-- The uncaught error path of `update`: with an existing row and a content
patch whose recomputed hash collides with another row's UNIQUE
`content_hash`, the UPDATE raises `IntegrityError`; the store keeps only the
first get's access bump (+1, no field patched) and no entry is returned. -/
theorem update_collision_raises (hashFn : String → String) (db : DB)
    (t1 t2 : Int) (i : Nat) (p : Patch) (r : MemRow)
    (hget : getRow db t1 i = some r) (hp : patchNonEmpty p = true)
    (hcol : updateHashCollision hashFn db i p = true) :
    update hashFn db t1 t2 i p =
      (touch db t1 i, Except.error
        "sqlite3.IntegrityError: UNIQUE constraint failed: memories.content_hash") := by
  have hcol1 : updateHashCollision hashFn (touch db t1 i) i p = true := by
    rw [updateHashCollision_touch]
    exact hcol
  unfold update get
  simp only [hget, hp, hcol1, if_true]

/-- C9.  A successful `update(id, patch)` with a non-empty patch of allowed
fields — one whose recomputed content hash does not collide with another
row's UNIQUE `content_hash`, so the UPDATE raises nothing — performs a full
`get` before the UPDATE and another after it, so it returns the patched
entry and leaves the stored row's `access_count` higher by exactly 2 and
its `accessed_at` refreshed twice (once per `get`, ending at the second
get's clock `t2`). -/
theorem update_bumps_access_twice (hashFn : String → String) (db : DB)
    (t1 t2 : Int) (i : Nat) (p : Patch) (r : MemRow)
    (hmem : r ∈ db.memories) (hid : r.id = i)
    (hnodup : (db.memories.map (fun x => x.id)).Nodup)
    (h1 : not_expired t1 r = true) (h2 : not_expired t2 r = true)
    (hp : patchNonEmpty p = true)
    (hcol : updateHashCollision hashFn db i p = false) :
    (update hashFn db t1 t2 i p).2 =
      Except.ok (some (applyPatch hashFn p (gBump t1 r))) ∧
    memLookup (update hashFn db t1 t2 i p).1 i =
      some (gBump t2 (applyPatch hashFn p (gBump t1 r))) ∧
    (gBump t2 (applyPatch hashFn p (gBump t1 r))).access_count =
      r.access_count + 2 ∧
    (gBump t2 (applyPatch hashFn p (gBump t1 r))).accessed_at = t2 := by
  have hf1 : ∀ x : MemRow, (if x.id == i then gBump t1 x else x).id = x.id := by
    intro x; by_cases hx : x.id == i <;> simp [hx, gBump]
  have hf2 : ∀ x : MemRow,
      (if x.id == i then applyPatch hashFn p x else x).id = x.id := by
    intro x; by_cases hx : x.id == i <;> simp [hx, applyPatch]
  have hf3 : ∀ x : MemRow, (if x.id == i then gBump t2 x else x).id = x.id := by
    intro x; by_cases hx : x.id == i <;> simp [hx, gBump]
  have hget1 : get db t1 i = (touch db t1 i, some r) :=
    get_eq_touch hnodup hmem hid h1
  -- the store after the first get and the field UPDATE
  have hr1mem : gBump t1 r ∈ (touch db t1 i).memories := by
    unfold touch
    have := List.mem_map_of_mem
      (fun x : MemRow => if x.id == i then gBump t1 x else x) hmem
    simpa [hid] using this
  have hnodup1 : ((touch db t1 i).memories.map (fun x => x.id)).Nodup := by
    unfold touch
    exact nodup_ids_map hf1 hnodup
  have hcol1 : updateHashCollision hashFn (touch db t1 i) i p = false := by
    rw [updateHashCollision_touch]
    exact hcol
  have hupdate : update hashFn db t1 t2 i p =
      ((get { touch db t1 i with
              memories := (touch db t1 i).memories.map (fun x =>
                if x.id == i then applyPatch hashFn p x else x) } t2 i).1,
        Except.ok (get { touch db t1 i with
              memories := (touch db t1 i).memories.map (fun x =>
                if x.id == i then applyPatch hashFn p x else x) } t2 i).2) := by
    unfold update
    rw [hget1]
    simp only [hp, hcol1, if_true, Bool.false_eq_true, if_false]
  have hr2mem : applyPatch hashFn p (gBump t1 r) ∈
      (touch db t1 i).memories.map (fun x =>
        if x.id == i then applyPatch hashFn p x else x) := by
    have := List.mem_map_of_mem
      (fun x : MemRow => if x.id == i then applyPatch hashFn p x else x) hr1mem
    simpa [gBump, hid] using this
  have hnodup2 : (((touch db t1 i).memories.map (fun x =>
      if x.id == i then applyPatch hashFn p x else x)).map
        (fun x => x.id)).Nodup :=
    nodup_ids_map hf2 hnodup1
  have hr2id : (applyPatch hashFn p (gBump t1 r)).id = i := by
    simp [applyPatch, gBump, hid]
  have hr2exp : not_expired t2 (applyPatch hashFn p (gBump t1 r)) = true := h2
  have hget2 : get { touch db t1 i with
      memories := (touch db t1 i).memories.map (fun x =>
        if x.id == i then applyPatch hashFn p x else x) } t2 i =
      (touch { touch db t1 i with
          memories := (touch db t1 i).memories.map (fun x =>
            if x.id == i then applyPatch hashFn p x else x) } t2 i,
        some (applyPatch hashFn p (gBump t1 r))) :=
    get_eq_touch hnodup2 hr2mem hr2id hr2exp
  refine ⟨?_, ?_, ?_, ?_⟩
  · rw [hupdate, hget2]
  · rw [hupdate, hget2]
    exact memLookup_touch_eq hnodup2 hr2mem hr2id
  · simp [gBump, applyPatch]
  · simp [gBump]

/-- Splitting is unchanged when the kept whitespace characters are replaced
by plain spaces, i.e. the code's `c.isalnum() or c.isspace()` cleaning
splits exactly like the spec's "each non-alphanumeric character becomes a
space". -/
theorem pySplitAux_clean_eq (l : List Char) : ∀ acc : List Char,
    pySplitAux (l.map cleanChar) acc =
      pySplitAux (l.map (fun c => if c.isAlphanum then c else ' ')) acc := by
  have hsp : (' ' : Char).isWhitespace = true := by decide
  induction l with
  | nil => intro acc; rfl
  | cons c cs ih =>
    intro acc
    by_cases hw : c.isWhitespace <;> by_cases ha : c.isAlphanum <;>
      simp [pySplitAux, cleanChar, hw, ha, ih, hsp]

/-- C8.  `sanitize_fts_query` replaces each non-alphanumeric character with
a space (equivalently: splits after the code's cleaning), keeps the first at
most `maxWords` whitespace-split words, and returns them OR-joined and
phrase-quoted; it returns `none` exactly when no word survives; twenty
words with `maxWords = 5` yield exactly the first five quoted tokens; and
`search_text` on a query that sanitizes to `none` returns the empty result
set. -/
theorem sanitize_fts_query_spec :
    (∀ raw : String, pySplit (cleanQuery raw) =
      pySplit (String.mk (raw.data.map (fun c => if c.isAlphanum then c else ' ')))) ∧
    (∀ (raw : String) (maxWords : Nat),
      (sanitize_fts_query raw maxWords = none ↔
        (pySplit (cleanQuery raw)).take maxWords = [])) ∧
    (∀ (raw : String) (maxWords : Nat),
      (pySplit (cleanQuery raw)).take maxWords ≠ [] →
      sanitize_fts_query raw maxWords =
        some (orJoin (((pySplit (cleanQuery raw)).take maxWords).map quoteWord))) ∧
    (∀ (raw : String) (maxWords : Nat),
      ((pySplit (cleanQuery raw)).take maxWords).length =
        min maxWords (pySplit (cleanQuery raw)).length) ∧
    sanitize_fts_query
      "w1 w2 w3 w4 w5 w6 w7 w8 w9 w10 w11 w12 w13 w14 w15 w16 w17 w18 w19 w20" 5 =
      some "\"w1\" OR \"w2\" OR \"w3\" OR \"w4\" OR \"w5\"" ∧
    (∀ (ftsMatch : String → MemRow → Bool) (rankOf : MemRow → Rat)
       (ftsFails : Bool) (db : DB) (now : Int) (query : String)
       (ns : Option String) (limit : Nat),
      sanitize_fts_query query 10 = none →
      search_text ftsMatch rankOf ftsFails db now query ns limit = []) := by
  refine ⟨?_, ?_, ?_, ?_, ?_, ?_⟩
  · intro raw
    unfold pySplit cleanQuery
    exact pySplitAux_clean_eq raw.data []
  · intro raw maxWords
    unfold sanitize_fts_query
    by_cases h : ((pySplit (cleanQuery raw)).take maxWords).isEmpty <;>
      simp_all [List.isEmpty_iff]
  · intro raw maxWords h
    unfold sanitize_fts_query
    have : ((pySplit (cleanQuery raw)).take maxWords).isEmpty = false := by
      simpa [List.isEmpty_iff] using h
    simp [this]
  · intro raw maxWords
    simp [List.length_take]
  · rfl
  · intro ftsMatch rankOf ftsFails db now query ns limit h
    unfold search_text
    rw [h]

/-- Witness for C8: a pure-punctuation query sanitizes to `none` and
searching with it returns the empty result set, and a two-word query keeps
both words quoted and OR-joined. -/
theorem sanitize_fts_query_spec_witness :
    search_text (fun _ _ => true) (fun _ => 0) false c8DB 0 "!@#$%" none 10 = [] ∧
    sanitize_fts_query "hello, world!" 10 = some "\"hello\" OR \"world\"" :=
  ⟨sanitize_fts_query_spec.2.2.2.2.2 (fun _ _ => true) (fun _ => 0) false c8DB 0
      "!@#$%" none 10 (by rfl),
   (sanitize_fts_query_spec.2.2.1 "hello, world!" 10 (by decide)).trans (by rfl)⟩

theorem omax_none_right (a : Option Rat) : omax a none = a := by
  cases a <;> rfl

theorem omax_assoc (a b c : Option Rat) :
    omax (omax a b) c = omax a (omax b c) := by
  cases a <;> cases b <;> cases c <;> simp [omax, max_assoc]

theorem listMax_cons (x : Rat) (l : List Rat) :
    listMax (x :: l) = omax (some x) (listMax l) := by
  cases h : listMax l <;> simp [listMax, h, omax]

theorem listMax_append (l₁ l₂ : List Rat) :
    listMax (l₁ ++ l₂) = omax (listMax l₁) (listMax l₂) := by
  induction l₁ with
  | nil => simp [listMax, omax]
  | cons x xs ih => rw [List.cons_append, listMax_cons, ih, listMax_cons, omax_assoc]

/-- One `candInsert` either maxes the stored score of its key or leaves
other keys untouched. -/
theorem candScore_candInsert (cs : Cands) (j : Nat) (m : MemRow) (s : Rat)
    (i : Nat) :
    candScore (candInsert cs j m s) i =
      if i = j then omax (candScore cs i) (some s) else candScore cs i := by
  unfold candInsert candScore
  by_cases hany : cs.any (fun c => c.1 == j)
  · simp only [hany, if_true]
    have hg : ∀ c : Nat × MemRow × Rat,
        ((if c.1 == j then (if s > c.2.2 then (j, m, s) else c) else c).1 == i) =
          (c.1 == i) := by
      intro c
      by_cases hc : c.1 == j
      · have hc' : c.1 = j := by simpa using hc
        by_cases hs : s > c.2.2 <;> simp [hc, hs, hc']
      · simp [hc]
    rw [find?_map_preserving _ _ _ hg]
    by_cases hij : i = j
    · subst hij
      cases hfind : cs.find? (fun c => c.1 == i) with
      | none =>
        exfalso
        rw [List.find?_eq_none] at hfind
        rcases List.any_eq_true.mp hany with ⟨c, hc, hci⟩
        exact hfind c hc hci
      | some c0 =>
        have hc0 : (c0.1 == i) = true := by
          have h := List.find?_some hfind
          simpa using h
        have hc0' : c0.1 = i := by simpa using hc0
        simp only [hfind, omax, Option.map_some']
        by_cases hlt : s > c0.2.2
        · simp [hc0', hlt, max_eq_right (le_of_lt hlt)]
        · simp [hc0', hlt, max_eq_left (le_of_not_lt hlt)]
    · cases hfind : cs.find? (fun c => c.1 == i) with
      | none => simp [hij]
      | some c0 =>
        have hc0' : c0.1 = i := by
          have h := List.find?_some hfind
          simpa using h
        have hne : ¬ c0.1 = j := by rw [hc0']; exact hij
        simp [hij, hfind, omax, hne]
  · have hanyf : cs.any (fun c => c.1 == j) = false := by
      rwa [Bool.not_eq_true] at hany
    simp only [hanyf, Bool.false_eq_true, if_false]
    rw [List.find?_append]
    by_cases hij : i = j
    · subst hij
      have hnone : cs.find? (fun c => c.1 == i) = none := by
        rw [List.find?_eq_none]
        intro c hc
        have h := List.any_eq_false.mp hanyf c hc
        simpa using h
      simp [hnone, List.find?, omax]
    · have : (((j, m, s) : Nat × MemRow × Rat).1 == i) = false := by
        simp [Ne.symm hij]
      simp [hij, List.find?, this, omax_none_right]

/-- Folding a list of `(id, row, score)` contributions into the dict maxes
the stored score with the contributions of the key. -/
theorem candScore_foldl_candInsert :
    ∀ (ts : List (Nat × MemRow × Rat)) (cs : Cands) (i : Nat),
    candScore (ts.foldl (fun acc t => candInsert acc t.1 t.2.1 t.2.2) cs) i =
      omax (candScore cs i)
        (listMax ((ts.filter (fun t => t.1 == i)).map (fun t => t.2.2)))
  | [], cs, i => by simp [listMax, omax_none_right]
  | t :: ts, cs, i => by
    rw [List.foldl_cons, candScore_foldl_candInsert ts _ i, candScore_candInsert]
    by_cases hti : t.1 = i
    · have hb : (t.1 == i) = true := by simpa using hti
      have hit : i = t.1 := hti.symm
      rw [List.filter_cons_of_pos (by simpa using hb), List.map_cons,
        listMax_cons, if_pos hit, omax_assoc]
    · have hb : (t.1 == i) = false := by simpa using hti
      have hit : ¬ i = t.1 := fun h => hti h.symm
      rw [List.filter_cons_of_neg (by simpa using hb), if_neg hit]

/-- The FTS clamp is a no-op: `1/(1+|x|)` already lies in [0,1]. -/
theorem clamp01_inv_abs (x : Rat) : clamp01 ((1 + |x|)⁻¹) = (1 + |x|)⁻¹ := by
  have h0 : (0 : Rat) < 1 + |x| := by positivity
  have hle : (1 + |x|)⁻¹ ≤ 1 := by
    rw [← one_div, div_le_one h0]
    simp [abs_nonneg]
  have hge : (0 : Rat) ≤ (1 + |x|)⁻¹ := by positivity
  unfold clamp01
  rw [min_eq_right hle, max_eq_right hge]

/-- The code's combined score equals the spec's formula. -/
theorem combinedScore_eq_spec (source : String) (r : SearchResultR) :
    combinedScore source r = specSearchScore source r := by
  unfold combinedScore specSearchScore normScore specRelevanceNorm
  by_cases hs : source == "semantic"
  · simp [hs]
  · simp [hs, one_div, clamp01_inv_abs]

/-- C7.  In `build_context`, each candidate id's pooled score is the
maximum of its per-source contributions — `0.6·relevance_norm +
0.4·importance/10` for each FTS or semantic hit (with the semantic score
clamped to [0,1] and the FTS rank normalized as `1/(1+|rank|)`) and
`importance/10` for each priority hit — and the ranked list is the
candidate pool sorted by final score in descending order. -/
theorem build_context_scoring_spec :
    (∀ (fts sem : List SearchResultR) (prio : List MemRow) (i : Nat),
      candScore (build_context_candidates fts sem prio) i =
        listMax (specContribs fts sem prio i)) ∧
    (∀ (fts sem : List SearchResultR) (prio : List MemRow),
      List.Sorted (fun a b => b.2 ≤ a.2) (build_context_ranked fts sem prio)) ∧
    (∀ (fts sem : List SearchResultR) (prio : List MemRow),
      (build_context_ranked fts sem prio).Perm
        ((build_context_candidates fts sem prio).map (fun c => c.2))) := by
  refine ⟨?_, ?_, ?_⟩
  · intro fts sem prio i
    unfold build_context_candidates priorityMerge merge_search_results
    rw [← List.foldl_map (fun e : MemRow => (e.id, e, (e.importance : Rat) / 10))
        (fun acc t => candInsert acc t.1 t.2.1 t.2.2)]
    rw [← List.foldl_map
        (fun r : SearchResultR => (r.memory.id, r.memory, combinedScore "semantic" r))
        (fun acc t => candInsert acc t.1 t.2.1 t.2.2)]
    rw [← List.foldl_map
        (fun r : SearchResultR => (r.memory.id, r.memory, combinedScore "fts" r))
        (fun acc t => candInsert acc t.1 t.2.1 t.2.2)]
    rw [candScore_foldl_candInsert, candScore_foldl_candInsert,
      candScore_foldl_candInsert]
    have hempty : candScore [] i = none := rfl
    rw [hempty]
    have hfil : ∀ (rs : List SearchResultR) (src : String),
        ((rs.map (fun r : SearchResultR => (r.memory.id, r.memory, combinedScore src r))).filter
            (fun t => t.1 == i)).map (fun t => t.2.2) =
          (rs.filter (fun r => r.memory.id == i)).map (specSearchScore src) := by
      intro rs src
      rw [List.filter_map, List.map_map]
      have hp : ((fun t : Nat × MemRow × Rat => t.1 == i) ∘
          (fun r : SearchResultR => (r.memory.id, r.memory, combinedScore src r))) =
          (fun r : SearchResultR => r.memory.id == i) := rfl
      have hm : ((fun t : Nat × MemRow × Rat => t.2.2) ∘
          (fun r : SearchResultR => (r.memory.id, r.memory, combinedScore src r))) =
          (fun r : SearchResultR => combinedScore src r) := rfl
      rw [hp, hm]
      exact List.map_congr_left (fun r _ => combinedScore_eq_spec src r)
    have hfilp :
        ((prio.map (fun e : MemRow => (e.id, e, (e.importance : Rat) / 10))).filter
            (fun t => t.1 == i)).map (fun t => t.2.2) =
          (prio.filter (fun e => e.id == i)).map (fun e => (e.importance : Rat) / 10) := by
      rw [List.filter_map, List.map_map]
      have hp : ((fun t : Nat × MemRow × Rat => t.1 == i) ∘
          (fun e : MemRow => (e.id, e, (e.importance : Rat) / 10))) =
          (fun e : MemRow => e.id == i) := rfl
      have hm : ((fun t : Nat × MemRow × Rat => t.2.2) ∘
          (fun e : MemRow => (e.id, e, (e.importance : Rat) / 10))) =
          (fun e : MemRow => (e.importance : Rat) / 10) := rfl
      rw [hp, hm]
    rw [hfil fts "fts", hfil sem "semantic", hfilp]
    unfold specContribs
    rw [listMax_append, listMax_append]
    have h0 : ∀ a : Option Rat, omax none a = a := fun a => by cases a <;> rfl
    rw [h0, omax_assoc]
  · intro fts sem prio
    exact List.sorted_insertionSort _ _
  · intro fts sem prio
    exact List.perm_insertionSort _ _

theorem getRow_id {db : DB} {now : Int} {i : Nat} {r : MemRow}
    (h : getRow db now i = some r) : r.id = i := by
  have hp := List.find?_some h
  rw [Bool.and_eq_true] at hp
  simpa using hp.1

theorem getRow_mem {db : DB} {now : Int} {i : Nat} {r : MemRow}
    (h : getRow db now i = some r) : r ∈ db.memories :=
  List.mem_of_find?_eq_some h

/-- In a store with no expired rows, a `none` from `getRow` means the id is
absent altogether. -/
theorem getRow_none_notMem {db : DB} {now : Int} {i : Nat}
    (halive : ∀ r ∈ db.memories, not_expired now r = true)
    (h : getRow db now i = none) : i ∉ db.memories.map (fun r => r.id) := by
  intro hmem
  rcases List.mem_map.mp hmem with ⟨r, hr, hrid⟩
  unfold getRow at h
  rw [List.find?_eq_none] at h
  exact h r hr (by simp [hrid, halive r hr])

theorem touch_links (db : DB) (now : Int) (i : Nat) :
    (touch db now i).links = db.links := rfl

theorem touch_ids (db : DB) (now : Int) (i : Nat) :
    (touch db now i).memories.map (fun r => r.id) =
      db.memories.map (fun r => r.id) := by
  unfold touch
  exact map_preserves_ids (fun x => by by_cases hx : x.id == i <;> simp [hx])

theorem touch_alive {db : DB} {now tnow : Int} {i : Nat}
    (halive : ∀ r ∈ db.memories, not_expired now r = true) :
    ∀ r ∈ (touch db tnow i).memories, not_expired now r = true := by
  intro r hr
  rcases List.mem_map.mp hr with ⟨r0, hr0, hr0eq⟩
  have hexp : r.expires_at = r0.expires_at := by
    rw [← hr0eq]
    by_cases hx : r0.id == i <;> simp [hx]
  have := halive r0 hr0
  unfold not_expired at this ⊢
  rw [hexp]
  exact this

/-- Members of a `sortByCreatedDesc` are members of the unsorted list. -/
theorem sortByCreatedDesc_mem {l : List LinkView} {v : LinkView}
    (h : v ∈ sortByCreatedDesc l) : v ∈ l :=
  (List.perm_insertionSort _ _).subset h

theorem sortByCreatedDesc_length (l : List LinkView) :
    (sortByCreatedDesc l).length = l.length :=
  (List.perm_insertionSort _ _).length_eq

/-- Every outgoing link view has the query id as source, a target whose
row exists, and an underlying link row. -/
theorem outgoingLinks_shape {db : DB} {i : Nat} {rel : Option String}
    {v : LinkView} (h : v ∈ outgoingLinks db i rel) :
    v.source_id = i ∧ v.target_id ∈ db.memories.map (fun r => r.id) ∧
      ∃ l ∈ db.links, v.id = l.id ∧ v.source_id = l.source_id ∧
        v.target_id = l.target_id := by
  have h1 := sortByCreatedDesc_mem h
  rcases List.mem_filterMap.mp h1 with ⟨l, hl, hmap⟩
  rcases List.mem_filter.mp hl with ⟨hlmem, hlpred⟩
  rw [Bool.and_eq_true] at hlpred
  have hsrc : l.source_id = i := by simpa using hlpred.1
  cases hlook : memLookup db l.target_id with
  | none => rw [hlook] at hmap; cases hmap
  | some m =>
    rw [hlook] at hmap
    have hv : v =
        { id := l.id, source_id := l.source_id, target_id := l.target_id,
          relation := l.relation, direction := "outgoing",
          linked_content := m.content, metadata := l.metadata,
          created_at := l.created_at } := by
      simpa using hmap.symm
    have hmid : m.id = l.target_id := by
      have := List.find?_some hlook
      simpa using this
    have hmmem : m ∈ db.memories := List.mem_of_find?_eq_some hlook
    subst hv
    refine ⟨hsrc, ?_, l, hlmem, rfl, rfl, rfl⟩
    exact List.mem_map.mpr ⟨m, hmmem, hmid⟩

/-- Every incoming link view has the query id as target, a source whose
row exists, and an underlying link row. -/
theorem incomingLinks_shape {db : DB} {i : Nat} {rel : Option String}
    {v : LinkView} (h : v ∈ incomingLinks db i rel) :
    v.target_id = i ∧ v.source_id ∈ db.memories.map (fun r => r.id) ∧
      ∃ l ∈ db.links, v.id = l.id ∧ v.source_id = l.source_id ∧
        v.target_id = l.target_id := by
  have h1 := sortByCreatedDesc_mem h
  rcases List.mem_filterMap.mp h1 with ⟨l, hl, hmap⟩
  rcases List.mem_filter.mp hl with ⟨hlmem, hlpred⟩
  rw [Bool.and_eq_true] at hlpred
  have htgt : l.target_id = i := by simpa using hlpred.1
  cases hlook : memLookup db l.source_id with
  | none => rw [hlook] at hmap; cases hmap
  | some m =>
    rw [hlook] at hmap
    have hv : v =
        { id := l.id, source_id := l.source_id, target_id := l.target_id,
          relation := l.relation, direction := "incoming",
          linked_content := m.content, metadata := l.metadata,
          created_at := l.created_at } := by
      simpa using hmap.symm
    have hmid : m.id = l.source_id := by
      have := List.find?_some hlook
      simpa using this
    have hmmem : m ∈ db.memories := List.mem_of_find?_eq_some hlook
    subst hv
    refine ⟨htgt, ?_, l, hlmem, rfl, rfl, rfl⟩
    exact List.mem_map.mpr ⟨m, hmmem, hmid⟩

/-- Every view of `get_links(i, "both")` touches `i` on one side, has an
existing row on the other side, and stems from a stored link row. -/
theorem get_links_both_shape {db : DB} {i : Nat} {rel : Option String}
    {v : LinkView} (h : v ∈ get_links db i "both" rel) :
    ((v.source_id = i ∧ v.target_id ∈ db.memories.map (fun r => r.id)) ∨
      (v.target_id = i ∧ v.source_id ∈ db.memories.map (fun r => r.id))) ∧
      ∃ l ∈ db.links, v.id = l.id ∧ v.source_id = l.source_id ∧
        v.target_id = l.target_id := by
  unfold get_links at h
  simp only [show (("both" : String) == "outgoing" || ("both" : String) == "both") = true
    from rfl, show (("both" : String) == "incoming" || ("both" : String) == "both") = true
    from rfl, if_true] at h
  rcases List.mem_append.mp h with ho | hi
  · rcases outgoingLinks_shape ho with ⟨h1, h2, h3⟩
    exact ⟨Or.inl ⟨h1, h2⟩, h3⟩
  · rcases incomingLinks_shape hi with ⟨h1, h2, h3⟩
    exact ⟨Or.inr ⟨h1, h2⟩, h3⟩

theorem filterMap_length_le {α β : Type} (f : α → Option β) (l : List α) :
    (l.filterMap f).length ≤ l.length := by
  induction l with
  | nil => simp
  | cons a as ih =>
    rw [List.filterMap_cons]
    cases f a <;> simp <;> omega

/-- `get_links(i, "both")` yields at most two views per stored link row. -/
theorem get_links_both_length (db : DB) (i : Nat) (rel : Option String) :
    (get_links db i "both" rel).length ≤ 2 * db.links.length := by
  unfold get_links outgoingLinks incomingLinks
  simp only [show (("both" : String) == "outgoing" || ("both" : String) == "both") = true
    from rfl, show (("both" : String) == "incoming" || ("both" : String) == "both") = true
    from rfl, if_true]
  rw [List.length_append, sortByCreatedDesc_length, sortByCreatedDesc_length]
  have h1 := filterMap_length_le
    (fun l : LinkRow => (memLookup db l.target_id).map (fun m =>
      ({ id := l.id, source_id := l.source_id, target_id := l.target_id,
         relation := l.relation, direction := "outgoing",
         linked_content := m.content, metadata := l.metadata,
         created_at := l.created_at } : LinkView)))
    (db.links.filter (fun l => l.source_id == i && relOk rel l))
  have h2 := filterMap_length_le
    (fun l : LinkRow => (memLookup db l.source_id).map (fun m =>
      ({ id := l.id, source_id := l.source_id, target_id := l.target_id,
         relation := l.relation, direction := "incoming",
         linked_content := m.content, metadata := l.metadata,
         created_at := l.created_at } : LinkView)))
    (db.links.filter (fun l => l.target_id == i && relOk rel l))
  have h3 := List.length_filter_le
    (fun l : LinkRow => l.source_id == i && relOk rel l) db.links
  have h4 := List.length_filter_le
    (fun l : LinkRow => l.target_id == i && relOk rel l) db.links
  omega

/-- The link loop only appends to the queue. -/
theorem processLinks_queue_mono (cur depth : Nat) (visited : List Nat) :
    ∀ (ls : List LinkView) (seen : List Nat) (edges : List GEdge)
      (queue : List (Nat × Nat)),
      ∀ q ∈ queue, q ∈ (processLinks cur depth visited ls seen edges queue).2.2
  | [], seen, edges, queue => fun q hq => hq
  | l :: ls, seen, edges, queue => fun q hq => by
    rw [processLinks]
    apply processLinks_queue_mono cur depth visited ls
    by_cases ho : linkOther cur l ∈ visited
    · simpa [ho] using hq
    · simp only [ho, if_neg, if_false]
      exact List.mem_append_left _ hq

/-- Every queue entry after the link loop was already queued or is a
neighbour of the current node at depth + 1. -/
theorem processLinks_queue_shape (cur depth : Nat) (visited : List Nat) :
    ∀ (ls : List LinkView) (seen : List Nat) (edges : List GEdge)
      (queue : List (Nat × Nat)),
      ∀ q ∈ (processLinks cur depth visited ls seen edges queue).2.2,
        q ∈ queue ∨ (q.2 = depth + 1 ∧ ∃ l ∈ ls, q.1 = linkOther cur l)
  | [], seen, edges, queue => fun q hq => Or.inl hq
  | l :: ls, seen, edges, queue => fun q hq => by
    rw [processLinks] at hq
    rcases processLinks_queue_shape cur depth visited ls _ _ _ q hq with hold | hnew
    · by_cases ho : linkOther cur l ∈ visited
      · rw [if_pos ho] at hold
        exact Or.inl hold
      · rw [if_neg ho] at hold
        rcases List.mem_append.mp hold with h1 | h2
        · exact Or.inl h1
        · have : q = (linkOther cur l, depth + 1) := by simpa using h2
          exact Or.inr ⟨by rw [this], l, List.mem_cons_self _ _, by rw [this]⟩
    · rcases hnew with ⟨hq2, l', hl', hq1⟩
      exact Or.inr ⟨hq2, l', List.mem_cons_of_mem _ hl', hq1⟩

/-- Every edge after the link loop was already recorded or stems from one
of the processed links, whose neighbour is either already visited or left
in the final queue. -/
theorem processLinks_edges_shape (cur depth : Nat) (visited : List Nat) :
    ∀ (ls : List LinkView) (seen : List Nat) (edges : List GEdge)
      (queue : List (Nat × Nat)),
      ∀ e ∈ (processLinks cur depth visited ls seen edges queue).2.1,
        e ∈ edges ∨ ∃ l ∈ ls, e.id = l.id ∧ e.source_id = l.source_id ∧
          e.target_id = l.target_id ∧
          (linkOther cur l ∈ visited ∨
            linkOther cur l ∈
              (processLinks cur depth visited ls seen edges queue).2.2.map
                (fun q => q.1))
  | [], seen, edges, queue => fun e he => Or.inl he
  | l :: ls, seen, edges, queue => fun e he => by
    rw [processLinks] at he ⊢
    rcases processLinks_edges_shape cur depth visited ls _ _ _ e he with hold | hnew
    · by_cases hs : l.id ∈ seen
      · rw [if_pos hs] at hold
        exact Or.inl hold
      · rw [if_neg hs] at hold
        rcases List.mem_append.mp hold with h1 | h2
        · exact Or.inl h1
        · have he' : e =
              { id := l.id, source_id := l.source_id,
                target_id := l.target_id, relation := l.relation } := by
            simpa using h2
          refine Or.inr ⟨l, List.mem_cons_self _ _, by rw [he'], by rw [he'],
            by rw [he'], ?_⟩
          by_cases ho : linkOther cur l ∈ visited
          · exact Or.inl ho
          · refine Or.inr (List.mem_map.mpr ⟨(linkOther cur l, depth + 1), ?_, rfl⟩)
            apply processLinks_queue_mono
            rw [if_neg ho]
            exact List.mem_append_right _ (List.mem_cons_self _ _)
    · rcases hnew with ⟨l', hl', h1, h2, h3, h4⟩
      exact Or.inr ⟨l', List.mem_cons_of_mem _ hl', h1, h2, h3, h4⟩

/-- The link loop appends at most one queue entry per link. -/
theorem processLinks_queue_length (cur depth : Nat) (visited : List Nat) :
    ∀ (ls : List LinkView) (seen : List Nat) (edges : List GEdge)
      (queue : List (Nat × Nat)),
      (processLinks cur depth visited ls seen edges queue).2.2.length ≤
        queue.length + ls.length
  | [], seen, edges, queue => by simp [processLinks]
  | l :: ls, seen, edges, queue => by
    rw [processLinks]
    have h := processLinks_queue_length cur depth visited ls
      (if l.id ∈ seen then seen else l.id :: seen)
      (if l.id ∈ seen then edges
       else edges ++ [{ id := l.id, source_id := l.source_id,
                        target_id := l.target_id, relation := l.relation }])
      (if linkOther cur l ∈ visited then queue
       else queue ++ [(linkOther cur l, depth + 1)])
    have hlen : (if linkOther cur l ∈ visited then queue
        else queue ++ [(linkOther cur l, depth + 1)]).length ≤ queue.length + 1 := by
      by_cases ho : linkOther cur l ∈ visited <;> simp [ho]
    simp only [List.length_cons]
    omega

/-- BFS invariant: node ids stay pairwise distinct (each node is appended
only when freshly visited). -/
theorem bfs_nodes_nodup (now : Int) (rel : Option String) (md : Nat) :
    ∀ (fuel : Nat) (db : DB) (queue : List (Nat × Nat)) (visited seen : List Nat)
      (nodes : List GNode) (edges : List GEdge),
      (nodes.map (fun n => n.id)).Nodup →
      (∀ n ∈ nodes, n.id ∈ visited) →
      (((bfsAux now rel md fuel db queue visited seen nodes edges).2.1).map
        (fun n => n.id)).Nodup := by
  intro fuel
  induction fuel with
  | zero =>
    intro db queue visited seen nodes edges h1 _
    cases queue with
    | nil => simpa [bfsAux] using h1
    | cons hd rest => simpa [bfsAux] using h1
  | succ f ih =>
    intro db queue visited seen nodes edges h1 h2
    cases queue with
    | nil => simpa [bfsAux] using h1
    | cons hd rest =>
      obtain ⟨cur, depth⟩ := hd
      rw [bfsAux]
      by_cases hv : cur ∈ visited
      · rw [if_pos hv]
        exact ih db rest visited seen nodes edges h1 h2
      · rw [if_neg hv]
        cases hget : getRow db now cur with
        | none =>
          exact ih db rest (cur :: visited) seen nodes edges h1
            (fun n hn => List.mem_cons_of_mem _ (h2 n hn))
        | some entry =>
          have hid : entry.id = cur := getRow_id hget
          have hnotin : cur ∉ nodes.map (fun n => n.id) := fun hc => by
            rcases List.mem_map.mp hc with ⟨n, hn, hnid⟩
            exact hv (hnid ▸ h2 n hn)
          have h1' : ∀ dd : Nat, ((nodes ++
              [({ id := entry.id,
                  content := String.mk (entry.content.data.take 200),
                  type := entry.memory_type, importance := entry.importance,
                  depth := dd } : GNode)]).map (fun n => n.id)).Nodup := by
            intro dd
            rw [List.map_append]
            simp only [List.map_cons, List.map_nil]
            rw [List.nodup_append]
            refine ⟨h1, List.nodup_singleton _, ?_⟩
            intro a ha hb
            have : a = entry.id := by simpa using hb
            rw [this, hid] at ha
            exact hnotin ha
          have h2' : ∀ dd : Nat, ∀ n ∈ nodes ++
              [({ id := entry.id,
                  content := String.mk (entry.content.data.take 200),
                  type := entry.memory_type, importance := entry.importance,
                  depth := dd } : GNode)], n.id ∈ cur :: visited := by
            intro dd n hn
            rcases List.mem_append.mp hn with hn1 | hn2
            · exact List.mem_cons_of_mem _ (h2 n hn1)
            · have hx := List.mem_singleton.mp hn2
              subst hx
              show entry.id ∈ cur :: visited
              rw [hid]
              exact List.mem_cons_self _ _
          by_cases hdep : md ≤ depth
          · simp only [hget, hdep, if_true]
            exact ih _ rest (cur :: visited) seen _ edges (h1' depth) (h2' depth)
          · simp only [hget, hdep, if_false]
            exact ih _ _ (cur :: visited) _ _ _ (h1' depth) (h2' depth)

/-- BFS invariant: every queued depth and recorded node depth is at most
the (clamped) max depth, because expansion stops at the limit. -/
theorem bfs_depth_bound (now : Int) (rel : Option String) (md : Nat) :
    ∀ (fuel : Nat) (db : DB) (queue : List (Nat × Nat)) (visited seen : List Nat)
      (nodes : List GNode) (edges : List GEdge),
      (∀ q ∈ queue, q.2 ≤ md) →
      (∀ n ∈ nodes, n.depth ≤ md) →
      ∀ n ∈ (bfsAux now rel md fuel db queue visited seen nodes edges).2.1,
        n.depth ≤ md := by
  intro fuel
  induction fuel with
  | zero =>
    intro db queue visited seen nodes edges _ h2
    cases queue with
    | nil => simpa [bfsAux] using h2
    | cons hd rest => simpa [bfsAux] using h2
  | succ f ih =>
    intro db queue visited seen nodes edges h1 h2
    cases queue with
    | nil => simpa [bfsAux] using h2
    | cons hd rest =>
      obtain ⟨cur, depth⟩ := hd
      have hdepth : depth ≤ md := h1 (cur, depth) (List.mem_cons_self _ _)
      have h1rest : ∀ q ∈ rest, q.2 ≤ md :=
        fun q hq => h1 q (List.mem_cons_of_mem _ hq)
      rw [bfsAux]
      by_cases hv : cur ∈ visited
      · rw [if_pos hv]
        exact ih db rest visited seen nodes edges h1rest h2
      · rw [if_neg hv]
        cases hget : getRow db now cur with
        | none => exact ih db rest (cur :: visited) seen nodes edges h1rest h2
        | some entry =>
          have h2' : ∀ n ∈ nodes ++
              [({ id := entry.id,
                  content := String.mk (entry.content.data.take 200),
                  type := entry.memory_type, importance := entry.importance,
                  depth := depth } : GNode)], n.depth ≤ md := by
            intro n hn
            rcases List.mem_append.mp hn with hn1 | hn2
            · exact h2 n hn1
            · have hx := List.mem_singleton.mp hn2
              subst hx
              show depth ≤ md
              exact hdepth
          by_cases hdep : md ≤ depth
          · simp only [hget, hdep, if_true]
            exact ih _ rest (cur :: visited) seen _ edges h1rest h2'
          · simp only [hget, hdep, if_false]
            refine ih _ _ (cur :: visited) _ _ _ ?_ h2'
            intro q hq
            rcases processLinks_queue_shape cur depth (cur :: visited) _ _ _ _
                q hq with hold | hnew
            · exact h1rest q hold
            · rw [hnew.1]
              omega

/-- Marking one more id visited can only shrink the unvisited count. -/
theorem unvisited_mono (cur : Nat) (visited : List Nat) :
    ∀ U : List Nat,
      (U.filter (fun x => decide (x ∉ cur :: visited))).length ≤
        (U.filter (fun x => decide (x ∉ visited))).length := by
  intro U
  induction U with
  | nil => exact Nat.le_refl _
  | cons a U' ih =>
    rw [List.filter_cons, List.filter_cons]
    by_cases h1 : a ∈ cur :: visited
    · rw [decide_eq_false (not_not_intro h1), if_neg Bool.false_ne_true]
      by_cases h2 : a ∈ visited
      · rw [decide_eq_false (not_not_intro h2), if_neg Bool.false_ne_true]
        exact ih
      · rw [decide_eq_true h2, if_pos rfl, List.length_cons]
        exact Nat.le_succ_of_le ih
    · have h2 : a ∉ visited := fun hc => h1 (List.mem_cons_of_mem _ hc)
      rw [decide_eq_true h1, decide_eq_true h2, if_pos rfl, if_pos rfl,
        List.length_cons, List.length_cons]
      exact Nat.succ_le_succ ih

/-- Visiting a fresh universe id strictly shrinks the unvisited count. -/
theorem unvisited_cons (cur : Nat) (visited : List Nat) :
    ∀ U : List Nat, cur ∈ U → cur ∉ visited →
      (U.filter (fun x => decide (x ∉ cur :: visited))).length + 1 ≤
        (U.filter (fun x => decide (x ∉ visited))).length := by
  intro U
  induction U with
  | nil => intro h _; cases h
  | cons a U' ih =>
    intro hU hv
    rw [List.filter_cons, List.filter_cons]
    by_cases ha : a = cur
    · subst ha
      rw [decide_eq_false (not_not_intro (List.mem_cons_self _ _)),
        if_neg Bool.false_ne_true, decide_eq_true hv, if_pos rfl,
        List.length_cons]
      have := unvisited_mono a visited U'
      omega
    · have hU' : cur ∈ U' := by
        rcases List.mem_cons.mp hU with h | h
        · exact absurd h.symm ha
        · exact h
      by_cases h2 : a ∈ visited
      · rw [decide_eq_false (not_not_intro (List.mem_cons_of_mem _ h2)),
          if_neg Bool.false_ne_true, decide_eq_false (not_not_intro h2),
          if_neg Bool.false_ne_true]
        exact ih hU' hv
      · have h1 : a ∉ cur :: visited := by
          intro hc
          rcases List.mem_cons.mp hc with h' | h'
          · exact ha h'
          · exact h2 h'
        rw [decide_eq_true h1, if_pos rfl, decide_eq_true h2, if_pos rfl,
          List.length_cons, List.length_cons]
        have := ih hU' hv
        omega

/-- BFS termination: with the `graphFuel` budget (queue length plus one
visit's worth of pushes per unvisited universe id) the queue always drains,
cycles included, because every enqueued id lies in the finite universe of
link endpoints and each round either pops a dead entry or permanently
visits a fresh id. -/
theorem bfs_drains (now : Int) (rel : Option String) (md : Nat)
    (L0 : List LinkRow) (U : List Nat)
    (hcov : ∀ l ∈ L0, l.source_id ∈ U ∧ l.target_id ∈ U) :
    ∀ (fuel : Nat) (db : DB) (queue : List (Nat × Nat)) (visited seen : List Nat)
      (nodes : List GNode) (edges : List GEdge),
      db.links = L0 →
      (∀ q ∈ queue, q.1 ∈ U) →
      queue.length +
        (U.filter (fun x => decide (x ∉ visited))).length *
          (2 * L0.length + 1) ≤ fuel →
      (bfsAux now rel md fuel db queue visited seen nodes edges).2.2.2 = true := by
  intro fuel
  induction fuel with
  | zero =>
    intro db queue visited seen nodes edges _ _ hfuel
    cases queue with
    | nil => simp [bfsAux]
    | cons hd rest => simp at hfuel
  | succ f ih =>
    intro db queue visited seen nodes edges hlinks hq hfuel
    cases queue with
    | nil => simp [bfsAux]
    | cons hd rest =>
      obtain ⟨cur, depth⟩ := hd
      have hcur : cur ∈ U := hq (cur, depth) (List.mem_cons_self _ _)
      have hqrest : ∀ q ∈ rest, q.1 ∈ U :=
        fun q hq' => hq q (List.mem_cons_of_mem _ hq')
      rw [bfsAux]
      by_cases hv : cur ∈ visited
      · rw [if_pos hv]
        refine ih db rest visited seen nodes edges hlinks hqrest ?_
        simp only [List.length_cons] at hfuel
        omega
      · rw [if_neg hv]
        have hshrink := unvisited_cons cur visited U hcur hv
        cases hget : getRow db now cur with
        | none =>
          refine ih db rest (cur :: visited) seen nodes edges hlinks hqrest ?_
          simp only [List.length_cons] at hfuel
          have hmul := Nat.mul_le_mul_right (2 * L0.length + 1) hshrink
          rw [Nat.add_mul, Nat.one_mul] at hmul
          omega
        | some entry =>
          by_cases hdep : md ≤ depth
          · simp only [hget, hdep, if_true]
            refine ih _ rest (cur :: visited) seen _ edges hlinks hqrest ?_
            simp only [List.length_cons] at hfuel
            have hmul := Nat.mul_le_mul_right (2 * L0.length + 1) hshrink
            rw [Nat.add_mul, Nat.one_mul] at hmul
            omega
          · simp only [hget, hdep, if_false]
            have hlinks1 : (touch db now cur).links = L0 := by
              rw [touch_links, hlinks]
            have hlen : (get_links (touch db now cur) cur "both" rel).length ≤
                2 * L0.length := by
              have := get_links_both_length (touch db now cur) cur rel
              rw [hlinks1] at this
              exact this
            have hqlen := processLinks_queue_length cur depth (cur :: visited)
              (get_links (touch db now cur) cur "both" rel) seen edges rest
            refine ih _ _ (cur :: visited) _ _ _ hlinks1 ?_ ?_
            · intro q hq'
              rcases processLinks_queue_shape cur depth (cur :: visited) _ _ _ _
                  q hq' with hold | hnew
              · exact hqrest q hold
              · rcases hnew.2 with ⟨l, hl, hq1⟩
                rcases (get_links_both_shape hl).2 with
                  ⟨lr, hlr, hid, hsrc, htgt⟩
                have hlr0 : lr ∈ L0 := by rw [← hlinks1]; exact hlr
                rcases hcov lr hlr0 with ⟨hsU, htU⟩
                rw [hq1]
                unfold linkOther
                by_cases hb : l.source_id == cur
                · rw [if_pos hb, htgt]
                  exact htU
                · rw [if_neg hb, hsrc]
                  exact hsU
            · simp only [List.length_cons] at hfuel
              have hmul := Nat.mul_le_mul_right (2 * L0.length + 1) hshrink
              rw [Nat.add_mul, Nat.one_mul] at hmul
              omega

/-- BFS invariant: in a store with no expired rows, when the queue drains,
every recorded edge connects recorded nodes.  `M0` is the (stable) id
column of the store; the invariants say that every visited id with a row
became a node and that every edge endpoint has a row and is a node, queued,
or visited. -/
theorem bfs_closure (now : Int) (rel : Option String) (md : Nat)
    (M0 : List Nat) :
    ∀ (fuel : Nat) (db : DB) (queue : List (Nat × Nat)) (visited seen : List Nat)
      (nodes : List GNode) (edges : List GEdge),
      db.memories.map (fun r => r.id) = M0 →
      (∀ r ∈ db.memories, not_expired now r = true) →
      (∀ v ∈ visited, v ∈ M0 → v ∈ nodes.map (fun n => n.id)) →
      (∀ e ∈ edges,
        (e.source_id ∈ M0 ∧ (e.source_id ∈ nodes.map (fun n => n.id) ∨
          e.source_id ∈ queue.map (fun q => q.1) ∨ e.source_id ∈ visited)) ∧
        (e.target_id ∈ M0 ∧ (e.target_id ∈ nodes.map (fun n => n.id) ∨
          e.target_id ∈ queue.map (fun q => q.1) ∨ e.target_id ∈ visited))) →
      (bfsAux now rel md fuel db queue visited seen nodes edges).2.2.2 = true →
      ∀ e ∈ (bfsAux now rel md fuel db queue visited seen nodes edges).2.2.1,
        e.source_id ∈
          ((bfsAux now rel md fuel db queue visited seen nodes edges).2.1.map
            (fun n => n.id)) ∧
        e.target_id ∈
          ((bfsAux now rel md fuel db queue visited seen nodes edges).2.1.map
            (fun n => n.id)) := by
  intro fuel
  induction fuel with
  | zero =>
    intro db queue visited seen nodes edges hrows halive hI1 hI2 hfin e he
    cases queue with
    | nil =>
      simp only [bfsAux] at he ⊢
      rcases hI2 e he with ⟨⟨hsM, hsW⟩, htM, htW⟩
      constructor
      · rcases hsW with h | h | h
        · exact h
        · simp at h
        · exact hI1 _ h hsM
      · rcases htW with h | h | h
        · exact h
        · simp at h
        · exact hI1 _ h htM
    | cons hd rest => simp [bfsAux] at hfin
  | succ f ih =>
    intro db queue visited seen nodes edges hrows halive hI1 hI2 hfin e he
    cases queue with
    | nil =>
      simp only [bfsAux] at he ⊢
      rcases hI2 e he with ⟨⟨hsM, hsW⟩, htM, htW⟩
      constructor
      · rcases hsW with h | h | h
        · exact h
        · simp at h
        · exact hI1 _ h hsM
      · rcases htW with h | h | h
        · exact h
        · simp at h
        · exact hI1 _ h htM
    | cons hd rest =>
      obtain ⟨cur, depth⟩ := hd
      rw [bfsAux] at hfin he ⊢
      by_cases hv : cur ∈ visited
      · rw [if_pos hv] at hfin he ⊢
        refine ih db rest visited seen nodes edges hrows halive hI1 ?_ hfin e he
        intro e' he'
        rcases hI2 e' he' with ⟨⟨hsM, hsW⟩, htM, htW⟩
        refine ⟨⟨hsM, ?_⟩, htM, ?_⟩
        · rcases hsW with h | h | h
          · exact Or.inl h
          · rcases (by simpa using h :
                e'.source_id = cur ∨ e'.source_id ∈ rest.map (fun q => q.1)) with
              hc | hr
            · exact Or.inr (Or.inr (hc ▸ hv))
            · exact Or.inr (Or.inl hr)
          · exact Or.inr (Or.inr h)
        · rcases htW with h | h | h
          · exact Or.inl h
          · rcases (by simpa using h :
                e'.target_id = cur ∨ e'.target_id ∈ rest.map (fun q => q.1)) with
              hc | hr
            · exact Or.inr (Or.inr (hc ▸ hv))
            · exact Or.inr (Or.inl hr)
          · exact Or.inr (Or.inr h)
      · rw [if_neg hv] at hfin he ⊢
        cases hget : getRow db now cur with
        | none =>
          simp only [hget] at hfin he ⊢
          have hcM : cur ∉ M0 := by
            rw [← hrows]
            exact getRow_none_notMem halive hget
          refine ih db rest (cur :: visited) seen nodes edges hrows halive
            ?_ ?_ hfin e he
          · intro v hvmem hvM
            rcases List.mem_cons.mp hvmem with rfl | hv'
            · exact absurd hvM hcM
            · exact hI1 v hv' hvM
          · intro e' he'
            rcases hI2 e' he' with ⟨⟨hsM, hsW⟩, htM, htW⟩
            refine ⟨⟨hsM, ?_⟩, htM, ?_⟩
            · rcases hsW with h | h | h
              · exact Or.inl h
              · rcases (by simpa using h :
                    e'.source_id = cur ∨
                      e'.source_id ∈ rest.map (fun q => q.1)) with hc | hr
                · exact Or.inr (Or.inr (by rw [hc]; exact List.mem_cons_self _ _))
                · exact Or.inr (Or.inl hr)
              · exact Or.inr (Or.inr (List.mem_cons_of_mem _ h))
            · rcases htW with h | h | h
              · exact Or.inl h
              · rcases (by simpa using h :
                    e'.target_id = cur ∨
                      e'.target_id ∈ rest.map (fun q => q.1)) with hc | hr
                · exact Or.inr (Or.inr (by rw [hc]; exact List.mem_cons_self _ _))
                · exact Or.inr (Or.inl hr)
              · exact Or.inr (Or.inr (List.mem_cons_of_mem _ h))
        | some entry =>
          have hid : entry.id = cur := getRow_id hget
          have hcM : cur ∈ M0 := by
            rw [← hrows]
            exact List.mem_map.mpr ⟨entry, getRow_mem hget, hid⟩
          have hrows1 : (touch db now cur).memories.map (fun r => r.id) = M0 := by
            rw [touch_ids]
            exact hrows
          have halive1 : ∀ r ∈ (touch db now cur).memories,
              not_expired now r = true := touch_alive halive
          have hnodes' : ∀ dd : Nat, (nodes ++
              [({ id := entry.id,
                  content := String.mk (entry.content.data.take 200),
                  type := entry.memory_type, importance := entry.importance,
                  depth := dd } : GNode)]).map (fun n => n.id) =
                nodes.map (fun n => n.id) ++ [cur] := by
            intro dd
            rw [List.map_append]
            simp [hid]
          have hcurnode : ∀ dd : Nat, cur ∈ (nodes ++
              [({ id := entry.id,
                  content := String.mk (entry.content.data.take 200),
                  type := entry.memory_type, importance := entry.importance,
                  depth := dd } : GNode)]).map (fun n => n.id) := by
            intro dd
            rw [hnodes' dd]
            exact List.mem_append_right _ (List.mem_cons_self _ _)
          have hI1' : ∀ dd : Nat, ∀ v ∈ cur :: visited, v ∈ M0 →
              v ∈ (nodes ++
              [({ id := entry.id,
                  content := String.mk (entry.content.data.take 200),
                  type := entry.memory_type, importance := entry.importance,
                  depth := dd } : GNode)]).map (fun n => n.id) := by
            intro dd v hvmem hvM
            rcases List.mem_cons.mp hvmem with rfl | hv'
            · exact hcurnode dd
            · rw [hnodes' dd]
              exact List.mem_append_left _ (hI1 v hv' hvM)
          by_cases hdep : md ≤ depth
          · simp only [hget, hdep, if_true] at hfin he ⊢
            refine ih _ rest (cur :: visited) seen _ edges hrows1 halive1
              (hI1' depth) ?_ hfin e he
            intro e' he'
            rcases hI2 e' he' with ⟨⟨hsM, hsW⟩, htM, htW⟩
            refine ⟨⟨hsM, ?_⟩, htM, ?_⟩
            · rcases hsW with h | h | h
              · exact Or.inl (by rw [hnodes' depth]; exact List.mem_append_left _ h)
              · rcases (by simpa using h :
                    e'.source_id = cur ∨
                      e'.source_id ∈ rest.map (fun q => q.1)) with hc | hr
                · exact Or.inl (by rw [hc]; exact hcurnode depth)
                · exact Or.inr (Or.inl hr)
              · exact Or.inr (Or.inr (List.mem_cons_of_mem _ h))
            · rcases htW with h | h | h
              · exact Or.inl (by rw [hnodes' depth]; exact List.mem_append_left _ h)
              · rcases (by simpa using h :
                    e'.target_id = cur ∨
                      e'.target_id ∈ rest.map (fun q => q.1)) with hc | hr
                · exact Or.inl (by rw [hc]; exact hcurnode depth)
                · exact Or.inr (Or.inl hr)
              · exact Or.inr (Or.inr (List.mem_cons_of_mem _ h))
          · simp only [hget, hdep, if_false] at hfin he ⊢
            refine ih _ _ (cur :: visited) _ _ _ hrows1 halive1
              (hI1' depth) ?_ hfin e he
            intro e' he'
            rcases processLinks_edges_shape cur depth (cur :: visited) _ _ _ _
                e' he' with hold | ⟨l, hl, hide, hsrce, htgte, hother⟩
            · rcases hI2 e' hold with ⟨⟨hsM, hsW⟩, htM, htW⟩
              refine ⟨⟨hsM, ?_⟩, htM, ?_⟩
              · rcases hsW with h | h | h
                · exact Or.inl (by rw [hnodes' depth]; exact List.mem_append_left _ h)
                · rcases (by simpa using h :
                      e'.source_id = cur ∨
                        e'.source_id ∈ rest.map (fun q => q.1)) with hc | hr
                  · exact Or.inl (by rw [hc]; exact hcurnode depth)
                  · rcases List.mem_map.mp hr with ⟨q, hq, hqe⟩
                    exact Or.inr (Or.inl (List.mem_map.mpr
                      ⟨q, processLinks_queue_mono cur depth (cur :: visited)
                        _ _ _ _ q hq, hqe⟩))
                · exact Or.inr (Or.inr (List.mem_cons_of_mem _ h))
              · rcases htW with h | h | h
                · exact Or.inl (by rw [hnodes' depth]; exact List.mem_append_left _ h)
                · rcases (by simpa using h :
                      e'.target_id = cur ∨
                        e'.target_id ∈ rest.map (fun q => q.1)) with hc | hr
                  · exact Or.inl (by rw [hc]; exact hcurnode depth)
                  · rcases List.mem_map.mp hr with ⟨q, hq, hqe⟩
                    exact Or.inr (Or.inl (List.mem_map.mpr
                      ⟨q, processLinks_queue_mono cur depth (cur :: visited)
                        _ _ _ _ q hq, hqe⟩))
                · exact Or.inr (Or.inr (List.mem_cons_of_mem _ h))
            · rcases get_links_both_shape hl with ⟨hshape, _⟩
              have hrowsl : (touch db now cur).memories.map (fun r => r.id) = M0 :=
                hrows1
              have hwit : linkOther cur l ∈ cur :: visited ∨
                  linkOther cur l ∈
                    (processLinks cur depth (cur :: visited)
                      (get_links (touch db now cur) cur "both" rel) seen edges
                      rest).2.2.map (fun q => q.1) := hother
              by_cases hsc : l.source_id = cur
              · have hlo : linkOther cur l = l.target_id := by
                  unfold linkOther
                  rw [if_pos (by simp [hsc])]
                have htM : e'.target_id ∈ M0 := by
                  rw [htgte]
                  rcases hshape with ⟨_, htm⟩ | ⟨htc, _⟩
                  · rw [← hrowsl]
                    exact htm
                  · rw [htc]
                    exact hcM
                refine ⟨⟨by rw [hsrce, hsc]; exact hcM,
                  Or.inl (by rw [hsrce, hsc]; exact hcurnode depth)⟩, htM, ?_⟩
                rw [hlo] at hwit
                rcases hwit with h | h
                · exact Or.inr (Or.inr (by rw [htgte]; exact h))
                · exact Or.inr (Or.inl (by rw [htgte]; exact h))
              · have hlo : linkOther cur l = l.source_id := by
                  unfold linkOther
                  rw [if_neg (by simp [hsc])]
                rcases hshape with ⟨hscur, _⟩ | ⟨htcur, hsm⟩
                · exact absurd hscur hsc
                · refine ⟨⟨by rw [hsrce, ← hrowsl]; exact hsm, ?_⟩,
                    ⟨by rw [htgte, htcur]; exact hcM,
                      Or.inl (by rw [htgte, htcur]; exact hcurnode depth)⟩⟩
                  rw [hlo] at hwit
                  rcases hwit with h | h
                  · exact Or.inr (Or.inr (by rw [hsrce]; exact h))
                  · exact Or.inr (Or.inl (by rw [hsrce]; exact h))

/-- C5.  `get_graph(root, d)` always terminates — the BFS drains its queue
within the precomputed fuel even on cyclic link structures — each returned
node id appears at most once, every returned node's discovered depth is at
most `min d 5` (the depth is clamped to 5 whatever the caller passes), and,
provided no stored memory is expired at the evaluation instant, every
returned edge connects only returned nodes. -/
theorem get_graph_spec (db : DB) (now : Int) (root : Nat) (d : Nat)
    (rel : Option String) :
    (get_graph db now root d rel).2.2.2 = true ∧
    (((get_graph db now root d rel).2.1).map (fun n => n.id)).Nodup ∧
    (∀ n ∈ (get_graph db now root d rel).2.1, n.depth ≤ min d 5) ∧
    ((∀ r ∈ db.memories, not_expired now r = true) →
      ∀ e ∈ (get_graph db now root d rel).2.2.1,
        e.source_id ∈ ((get_graph db now root d rel).2.1.map (fun n => n.id)) ∧
        e.target_id ∈ ((get_graph db now root d rel).2.1.map (fun n => n.id))) := by
  have hdrain : (get_graph db now root d rel).2.2.2 = true := by
    unfold get_graph graphFuel
    refine bfs_drains now rel (min d 5) db.links (idUniverse db root) ?_ _ db
      [(root, 0)] [] [] [] [] rfl ?_ ?_
    · intro l hl
      constructor
      · exact List.mem_cons_of_mem _
          (List.mem_append_left _ (List.mem_map.mpr ⟨l, hl, rfl⟩))
      · exact List.mem_cons_of_mem _
          (List.mem_append_right _ (List.mem_map.mpr ⟨l, hl, rfl⟩))
    · intro q hq
      have hq' : q = (root, 0) := by simpa using hq
      rw [hq']
      exact List.mem_cons_self _ _
    · simp only [List.length_cons, List.length_nil]
      have hfle : ((idUniverse db root).filter
          (fun x => decide (x ∉ ([] : List Nat)))).length ≤
            (idUniverse db root).length := List.length_filter_le _ _
      have hmul := Nat.mul_le_mul_right (2 * db.links.length + 1) hfle
      omega
  refine ⟨hdrain, ?_, ?_, ?_⟩
  · unfold get_graph
    exact bfs_nodes_nodup now rel (min d 5) _ db [(root, 0)] [] [] [] []
      (by simp) (by intro n hn; cases hn)
  · unfold get_graph
    refine bfs_depth_bound now rel (min d 5) _ db [(root, 0)] [] [] [] []
      ?_ (by intro n hn; cases hn)
    intro q hq
    have hq' : q = (root, 0) := by simpa using hq
    rw [hq']
    exact Nat.zero_le _
  · intro halive
    unfold get_graph at hdrain ⊢
    exact bfs_closure now rel (min d 5) (db.memories.map (fun r => r.id)) _ db
      [(root, 0)] [] [] [] [] rfl halive (by intro v hv _; cases hv)
      (by intro e he; cases he) hdrain

/-- Witness for C5: on the 3-cycle the BFS terminates and every edge
connects returned nodes. -/
theorem get_graph_spec_witness :
    (get_graph c5DB 0 1 5 none).2.2.2 = true ∧
    (∀ e ∈ (get_graph c5DB 0 1 5 none).2.2.1,
      e.source_id ∈ ((get_graph c5DB 0 1 5 none).2.1.map (fun n => n.id)) ∧
      e.target_id ∈ ((get_graph c5DB 0 1 5 none).2.1.map (fun n => n.id))) :=
  ⟨(get_graph_spec c5DB 0 1 5 none).1,
   (get_graph_spec c5DB 0 1 5 none).2.2.2 (by decide)⟩

/-- C5 counterexample for the unconditional edge-closure reading.  On the
store where memory 2 is expired (`c2DB` at time 100), `get_graph(1)`
returns the single node 1 yet lists the edge (1, 2): `get_links` (no expiry
predicate) surfaces the edge while `get` (with the predicate) refuses the
expired node, so a returned edge can touch a node absent from the returned
node list. -/
theorem get_graph_edge_closure_counterexample :
    (get_graph c2DB 100 1 5 none).2.1.map (fun n => n.id) = [1] ∧
    (get_graph c2DB 100 1 5 none).2.2.1 =
      [{ id := 1, source_id := 1, target_id := 2, relation := "related" }] ∧
    ¬ (2 ∈ (get_graph c2DB 100 1 5 none).2.1.map (fun n => n.id)) := by decide

/-- Witness for C9 at a concrete one-row store: updating importance leaves
the stored row with access count 2 and accessed-at 20 (the second get's
clock). -/
theorem tick_lemma_snd (s : AutoSaveState) (now : Rat) (ram : Option Rat) :
    (tick s now ram).2 =
      should_save { s with message_count := s.message_count + 1 } now ram := by
  unfold tick
  cases h : should_save { s with message_count := s.message_count + 1 } now ram <;>
    simp [h]

/-- C6.  `tick(ram_pct)` first increments `message_count` and then decides
in exactly the priority order disabled/empty → RAM → message count → timer
(the spec's decision tree `specTickReason`); when nothing fires the state
only carries the message increment, and when a trigger fires the state is
the checkpoint-reset of the incremented state with that reason recorded. -/
theorem tick_trigger_spec (s : AutoSaveState) (now : Rat) (ram : Option Rat) :
    (tick s now ram).2 = specTickReason s now ram ∧
    ((tick s now ram).2 = none →
      (tick s now ram).1 = { s with message_count := s.message_count + 1 }) ∧
    (∀ reason, (tick s now ram).2 = some reason →
      (tick s now ram).1 =
        checkpointReset { s with message_count := s.message_count + 1 } now
          reason) := by
  refine ⟨?_, ?_, ?_⟩
  · rw [tick_lemma_snd]
    unfold should_save specTickReason
    cases henb : s.config.enabled <;> simp [henb]
  · intro hnone
    rw [tick_lemma_snd] at hnone
    unfold tick
    simp only [hnone]
  · intro reason hsome
    rw [tick_lemma_snd] at hsome
    unfold tick
    simp only [hsome]

/-- Witness for C6: the third tick crosses the message threshold and
resets the state with reason "message_threshold"; the same tick on a
disabled instance only increments the counter. -/
theorem tick_trigger_spec_witness :
    (tick c6State 10 none).1 =
      checkpointReset { c6State with message_count := 3 } 10
        "message_threshold" ∧
    (tick c6Disabled 10 none).1 =
      { c6Disabled with message_count := 3 } :=
  ⟨(tick_trigger_spec c6State 10 none).2.2 "message_threshold" (by decide),
   (tick_trigger_spec c6Disabled 10 none).2.1 (by decide)⟩

/-- The head of `activeSessionFor` is a stored session satisfying the
active-and-project WHERE clause. -/
theorem activeSessionFor_matches {db : SessionDB} {p : Option String}
    {s : SessionRow} (h : activeSessionFor db p = some s) :
    s ∈ db.sessions ∧ sessionMatches p s = true := by
  unfold activeSessionFor at h
  have hmem : s ∈ (db.sessions.filter (sessionMatches p)).insertionSort
      (fun a b => b.started_at ≤ a.started_at) := by
    cases hl : (db.sessions.filter (sessionMatches p)).insertionSort
        (fun a b => b.started_at ≤ a.started_at) with
    | nil => rw [hl] at h; cases h
    | cons a as =>
      rw [hl] at h
      have : a = s := by simpa using h
      rw [← this]
      exact List.mem_cons_self a as
  have hmem' : s ∈ db.sessions.filter (sessionMatches p) :=
    (List.perm_insertionSort _ _).subset hmem
  exact ⟨(List.mem_filter.mp hmem').1, (List.mem_filter.mp hmem').2⟩

/-- A session matching the WHERE clause for parameter `p` has project `p`
or a NULL project. -/
theorem sessionMatches_project {p : Option String} {s : SessionRow}
    (h : sessionMatches p s = true) : s.project = p ∨ s.project = none := by
  unfold sessionMatches at h
  rw [Bool.and_eq_true] at h
  rcases hsp : s.project with _ | sp
  · exact Or.inr rfl
  · rcases hp : p with _ | q
    · rw [hsp, hp] at h
      simp at h
    · rw [hsp, hp] at h
      have : sp = q := by simpa using h.2
      exact Or.inl (by rw [this])

/-- Session → session-id maps commute with id-preserving row updates. -/
theorem map_preserves_sids {l : List SessionRow} {f : SessionRow → SessionRow}
    (hf : ∀ x, (f x).session_id = x.session_id) :
    (l.map f).map (fun x => x.session_id) = l.map (fun x => x.session_id) := by
  rw [List.map_map]
  exact List.map_congr_left (fun x _ => hf x)

/-- C3 counterexample.  Saving a checkpoint for project "x" when the only
active session has a NULL project attaches the checkpoint to that session
(whose project differs from "x") and mints no new session, because the
WHERE clause is `project = ? OR project IS NULL`. -/
theorem save_checkpoint_cross_project_counterexample :
    (save_checkpoint c3DB (some "x") "s" [] [] [] "session_new" 5).2.1 =
      "session_old" ∧
    (save_checkpoint c3DB (some "x") "s" [] [] [] "session_new" 5).1.sessions.map
      (fun s => s.session_id) = ["session_old"] ∧
    (save_checkpoint c3DB (some "x") "s" [] [] [] "session_new" 5).1.checkpoints.map
      (fun c => c.session_id) = ["session_old"] ∧
    (∀ s ∈ c3DB.sessions, s.project ≠ some "x") := by decide

/-- C3 (amended).  `save_checkpoint(project = p, ...)` attaches the
checkpoint to the most recently started active session whose project
equals `p` **or is NULL**, and mints a fresh session (with the freshly
generated id, project `p`) only when no such session exists; consequently
a checkpoint for `p` can land on a NULL-project session, but never on a
session with a different non-NULL project. -/
theorem save_checkpoint_spec (db : SessionDB) (p : Option String)
    (summary : String) (kf ot fm : List String) (freshId : String) (now : Int)
    (hnodup : (db.sessions.map (fun s => s.session_id)).Nodup)
    (hfresh : ∀ s ∈ db.sessions, s.session_id ≠ freshId) :
    (∀ s0, activeSessionFor db p = some s0 →
      (save_checkpoint db p summary kf ot fm freshId now).2.1 = s0.session_id ∧
      (s0.project = p ∨ s0.project = none) ∧
      (save_checkpoint db p summary kf ot fm freshId now).1.sessions.map
        (fun s => s.session_id) = db.sessions.map (fun s => s.session_id)) ∧
    (activeSessionFor db p = none →
      (save_checkpoint db p summary kf ot fm freshId now).2.1 = freshId ∧
      (save_checkpoint db p summary kf ot fm freshId now).1.sessions.map
        (fun s => s.session_id) =
          db.sessions.map (fun s => s.session_id) ++ [freshId]) ∧
    ((save_checkpoint db p summary kf ot fm freshId now).1.checkpoints.map
        (fun c => c.session_id) =
      db.checkpoints.map (fun c => c.session_id) ++
        [(save_checkpoint db p summary kf ot fm freshId now).2.1]) ∧
    (∀ s ∈ (save_checkpoint db p summary kf ot fm freshId now).1.sessions,
      s.session_id = (save_checkpoint db p summary kf ot fm freshId now).2.1 →
      (s.project = p ∨ s.project = none)) := by
  have hgid : ∀ (sid : String) (num : Nat) (x : SessionRow),
      (if x.session_id == sid then
        { x with checkpoint_count := num, summary := some summary }
       else x).session_id = x.session_id := by
    intro sid num x
    by_cases hx : x.session_id == sid <;> simp [hx]
  have hgproj : ∀ (sid : String) (num : Nat) (x : SessionRow),
      (if x.session_id == sid then
        { x with checkpoint_count := num, summary := some summary }
       else x).project = x.project := by
    intro sid num x
    by_cases hx : x.session_id == sid <;> simp [hx]
  cases hact : activeSessionFor db p with
  | some s0 =>
    have hs0 := activeSessionFor_matches hact
    have hproj := sessionMatches_project hs0.2
    refine ⟨?_, ?_, ?_, ?_⟩
    · intro s1 hs1
      have he : s1 = s0 := (Option.some.inj hs1).symm
      subst he
      refine ⟨?_, hproj, ?_⟩
      · simp [save_checkpoint, get_or_create_session, hact]
      · simp only [save_checkpoint, get_or_create_session, hact]
        exact map_preserves_sids (hgid _ _)
    · intro hnone
      simp at hnone
    · simp only [save_checkpoint, get_or_create_session, hact, List.map_append]
      rfl
    · intro s hs hsid
      simp only [save_checkpoint, get_or_create_session, hact] at hs hsid
      rcases List.mem_map.mp hs with ⟨s1, hs1mem, hs1eq⟩
      have hid1 : s.session_id = s1.session_id := by
        rw [← hs1eq]; exact hgid _ _ s1
      have hpr1 : s.project = s1.project := by
        rw [← hs1eq]; exact hgproj _ _ s1
      have : s1 = s0 := by
        refine List.inj_on_of_nodup_map hnodup hs1mem hs0.1 ?_
        rw [← hid1, hsid]
      rw [hpr1, this]
      exact hproj
  | none =>
    refine ⟨?_, ?_, ?_, ?_⟩
    · intro s1 hs1
      simp at hs1
    · intro _
      constructor
      · simp [save_checkpoint, get_or_create_session, hact]
      · simp only [save_checkpoint, get_or_create_session, hact]
        rw [map_preserves_sids (hgid _ _)]
        simp [newSession]
    · simp only [save_checkpoint, get_or_create_session, hact, List.map_append]
      rfl
    · intro s hs hsid
      simp only [save_checkpoint, get_or_create_session, hact] at hs hsid
      rcases List.mem_map.mp hs with ⟨s1, hs1mem, hs1eq⟩
      have hid1 : s.session_id = s1.session_id := by
        rw [← hs1eq]; exact hgid _ _ s1
      have hpr1 : s.project = s1.project := by
        rw [← hs1eq]; exact hgproj _ _ s1
      rcases List.mem_append.mp hs1mem with hold | hnew
      · exact absurd (by rw [← hid1, hsid]) (hfresh s1 hold)
      · have : s1 = newSession freshId p now := by simpa using hnew
        rw [hpr1, this]
        exact Or.inl rfl

/-- Witness for C3: on the NULL-project store the checkpoint attaches to
the NULL session; on an empty store a fresh session with project "x" is
minted. -/
theorem save_checkpoint_spec_witness :
    ((save_checkpoint c3DB (some "x") "s" [] [] [] "session_new" 5).2.1 =
        "session_old" ∧
      ((none : Option String) = some "x" ∨ (none : Option String) = none) ∧
      (save_checkpoint c3DB (some "x") "s" [] [] [] "session_new" 5).1.sessions.map
        (fun s => s.session_id) = c3DB.sessions.map (fun s => s.session_id)) ∧
    ((save_checkpoint { sessions := [], checkpoints := [] } (some "x") "s"
        [] [] [] "session_new" 5).2.1 = "session_new" ∧
      (save_checkpoint { sessions := [], checkpoints := [] } (some "x") "s"
        [] [] [] "session_new" 5).1.sessions.map (fun s => s.session_id) =
          [] ++ ["session_new"]) := by
  constructor
  · have h := (save_checkpoint_spec c3DB (some "x") "s" [] [] [] "session_new" 5
      (by decide) (by decide)).1
    have hact : activeSessionFor c3DB (some "x") =
        some { session_id := "session_old", project := none, summary := none,
               status := "active", started_at := 0, checkpoint_count := 0 } := by
      decide
    exact h _ hact
  · exact (save_checkpoint_spec { sessions := [], checkpoints := [] }
      (some "x") "s" [] [] [] "session_new" 5 (by decide)
      (by intro s hs; cases hs)).2.1 (by decide)

/-- Every joined pair agrees on the session id, with the session drawn
from the sessions table. -/
theorem sqlJoin_mem : ∀ {cs : List CheckpointRow} {ss : List SessionRow}
    {pr : CheckpointRow × SessionRow}, pr ∈ sqlJoin cs ss →
    pr.2 ∈ ss ∧ pr.1.session_id = pr.2.session_id := by
  intro cs
  induction cs with
  | nil => intro ss pr h; cases h
  | cons c rest ih =>
    intro ss pr h
    rw [sqlJoin] at h
    rcases List.mem_append.mp h with hl | hr
    · rcases List.mem_map.mp hl with ⟨s, hsmem, hseq⟩
      rcases List.mem_filter.mp hsmem with ⟨hs, hpred⟩
      rw [← hseq]
      exact ⟨hs, by
        simpa using (by simpa using hpred : s.session_id = c.session_id).symm⟩
    · exact ih hr

/-- Every character of a decimal `Nat.toDigitsCore 10` rendering is a
digit. -/
theorem toDigitsCore_digits : ∀ (fuel n : Nat) (acc : List Char),
    (∀ c ∈ acc, c.isDigit = true) →
    ∀ c ∈ Nat.toDigitsCore 10 fuel n acc, c.isDigit = true := by
  intro fuel
  induction fuel with
  | zero =>
    intro n acc hacc c hc
    simp only [Nat.toDigitsCore] at hc
    exact hacc c hc
  | succ f ih =>
    intro n acc hacc c hc
    have hd : (Nat.digitChar (n % 10)).isDigit = true := by
      have h10 : n % 10 < 10 := Nat.mod_lt _ (by decide)
      have hall : ∀ m, m < 10 → (Nat.digitChar m).isDigit = true := by decide
      exact hall _ h10
    simp only [Nat.toDigitsCore] at hc
    by_cases h0 : n / 10 = 0
    · rw [if_pos h0] at hc
      rcases List.mem_cons.mp hc with rfl | hmem
      · exact hd
      · exact hacc c hmem
    · rw [if_neg h0] at hc
      refine ih (n / 10) _ ?_ c hc
      intro c' hc'
      rcases List.mem_cons.mp hc' with rfl | h
      · exact hd
      · exact hacc c' h

/-- Every character of `Nat.repr` is a digit. -/
theorem natRepr_digits (n : Nat) : ∀ c ∈ (Nat.repr n).data, c.isDigit = true := by
  intro c hc
  have hrepr : (Nat.repr n).data = Nat.toDigits 10 n := rfl
  rw [hrepr] at hc
  exact toDigitsCore_digits (n + 1) n [] (by intro c' hc'; cases hc') c hc

/-- Every character of the decimal string of an integer is a digit or the
minus sign. -/
theorem intStr_chars (i : Int) :
    ∀ c ∈ (intStr i).data, c.isDigit = true ∨ c = '-' := by
  cases i with
  | ofNat m => exact fun c hc => Or.inl (natRepr_digits m c hc)
  | negSucc m =>
    intro c hc
    have hdata : (intStr (Int.negSucc m)).data = '-' :: (Nat.repr (m + 1)).data :=
      rfl
    rw [hdata] at hc
    rcases List.mem_cons.mp hc with rfl | hmem
    · exact Or.inr rfl
    · exact Or.inl (natRepr_digits (m + 1) c hmem)

/-- C10.  `AutoSave.restore(checkpoint_id)` looks checkpoints up by
`session_id = str(checkpoint_id)`; since every session id produced by
`save_checkpoint`'s generator starts with `"session_"` while a decimal
integer string consists of digits (and possibly a minus sign), the lookup
finds nothing and `restore` returns `None`. -/
theorem restore_numeric_id_none (db : SessionDB) (proj : Option String)
    (cid : Int)
    (hgen : ∀ s ∈ db.sessions, ∃ rest, s.session_id = "session_" ++ rest) :
    restore db proj (some cid) = none := by
  unfold restore load_checkpoint
  have hempty : (sqlJoin db.checkpoints db.sessions).filter
      (fun cs => cs.1.session_id == intStr cid) = [] := by
    rw [List.filter_eq_nil_iff]
    intro pr hpr
    have hj := sqlJoin_mem hpr
    rcases hgen pr.2 hj.1 with ⟨rest, hrid⟩
    simp only [beq_iff_eq, Bool.not_eq_true]
    intro heq
    have hsess : "session_" ++ rest = intStr cid := by
      rw [← hrid, ← hj.2, heq]
    have hs : 's' ∈ (intStr cid).data := by
      rw [← hsess]
      have hd : (("session_" ++ rest) : String).data =
          "session_".data ++ rest.data := rfl
      rw [hd]
      exact List.mem_append_left _ (by decide)
    rcases intStr_chars cid 's' hs with hdig | hdash
    · exact absurd hdig (by decide)
    · exact absurd hdash (by decide)
  simp only [hempty]
  rfl

/-- Witness for C10: restoring by the numeric id 7 on a store whose only
session was generator-named returns `None`. -/
theorem restore_numeric_id_none_witness :
    restore c10DB (some "x") (some 7) = none :=
  restore_numeric_id_none c10DB (some "x") 7 (by
    intro s hs
    have : s = { session_id := "session_20240101_abcdef", project := some "x",
                 summary := none, status := "active", started_at := 0,
                 checkpoint_count := 1 } := by simpa [c10DB] using hs
    exact ⟨"20240101_abcdef", by rw [this]; decide⟩)

theorem update_bumps_access_twice_witness :
    (update (fun s => s) c9DB 10 20 1 c9Patch).2 =
      Except.ok (some (applyPatch (fun s => s) c9Patch (gBump 10 (mkRow 1 "A" none)))) ∧
    memLookup (update (fun s => s) c9DB 10 20 1 c9Patch).1 1 =
      some (gBump 20 (applyPatch (fun s => s) c9Patch (gBump 10 (mkRow 1 "A" none)))) ∧
    (gBump 20 (applyPatch (fun s => s) c9Patch (gBump 10 (mkRow 1 "A" none)))).access_count =
      (mkRow 1 "A" none).access_count + 2 ∧
    (gBump 20 (applyPatch (fun s => s) c9Patch (gBump 10 (mkRow 1 "A" none)))).accessed_at = 20 :=
  update_bumps_access_twice (fun s => s) c9DB 10 20 1 c9Patch (mkRow 1 "A" none)
    (by decide) (by decide) (by decide) (by decide) (by decide) (by decide)
    (by decide)

end Engram
